import Mathlib

/-!
# Arimann Bid Command Center — verification of the sync/discovery pipeline

Shallow embedding, in Lean 4, of the bid-tracking pipeline of the
`arimann-bid-center` repository:

* `Full_Google_AppsScript.gs` — the scheduled Apps Script
  (`syncAll`, `applyAutoStatus_`, `computeHash_`, `pollCommbuys`,
  `parseCommbuysResults_`, and the Drive/Calendar helpers);
* `AppsScript_API_Endpoint.gs` — the web API (`addBidFromApi_`);
* `src/lib/sheets.js` — the Next.js server library
  (`normalizeStatus`, `buildNextBidId`);
* the client-side sheets library (the file holding `LEGACY_STATUS_MAP`
  and its own `normalizeStatus`).

JavaScript strings are Lean `String`s; spreadsheet cells are a small
value universe (`CellVal`); machine-level platform services
(Drive, Calendar, Slack, `UrlFetchApp`, `Utilities.formatDate`) are
injected as explicit function-valued environments, while everything the
repository itself computes (regex scanning, hashing input serialization,
SHA-256 as pinned by `Utilities.DigestAlgorithm.SHA_256`, status rules,
dedup logic) is translated into executable Lean definitions.
-/

namespace BidCenter

/-! ## JavaScript string primitives -/

/-- The whitespace characters removed by JavaScript `String.prototype.trim`
(ASCII blanks, line terminators, NBSP and the BOM). -/
def isJsSpace (c : Char) : Bool :=
  c = ' ' ∨ c = '\t' ∨ c = '\n' ∨ c = '\r' ∨ c = '\x0b' ∨ c = '\x0c' ∨
  c = '\xa0' ∨ c.toNat = 0xfeff

/-- `s.trim()` from JavaScript. -/
def jsTrim (s : String) : String :=
  String.mk (((s.toList.dropWhile isJsSpace).reverse.dropWhile isJsSpace).reverse)

/-- ASCII lower-casing of one character, as done by `toLowerCase` on the
ASCII range (the only range the sources exercise). -/
def lowerChar (c : Char) : Char :=
  if 'A' ≤ c ∧ c ≤ 'Z' then Char.ofNat (c.toNat + 32) else c

/-- ASCII upper-casing of one character (`toUpperCase`). -/
def upperChar (c : Char) : Char :=
  if 'a' ≤ c ∧ c ≤ 'z' then Char.ofNat (c.toNat - 32) else c

/-- `s.toLowerCase()` (ASCII fragment). -/
def jsLower (s : String) : String := String.mk (s.toList.map lowerChar)

/-- `s.toUpperCase()` (ASCII fragment). -/
def jsUpper (s : String) : String := String.mk (s.toList.map upperChar)

/-- `s.startsWith(p)` — JS `startsWith`, by code points. -/
def jsStartsWith (s p : String) : Bool := p.toList.isPrefixOf s.toList

/-- `s.slice(n)` for `0 ≤ n` — drop the first `n` code points. -/
def jsDropChars (s : String) (n : Nat) : String := String.mk (s.toList.drop n)

/-! ## Spreadsheet cells and the decoded Bid record

`readBidRow_` (Full_Google_AppsScript.gs) turns one row of the `Bids`
sheet into an object.  A cell read through the Sheets API is a string, a
date, or blank; `str_(v)` is `String(v || "").trim()`. -/

/-- A raw spreadsheet cell value. -/
inductive CellVal where
  | blank
  | str (s : String)
  | date (ms : Int)
deriving DecidableEq, Repr

/-- `String(v || "")` for a cell: blank and the empty string are falsy and
print as `""`; a `Date` cell prints through the platform's locale
rendering, which the pipeline never feeds into any decision the claims
touch — it is modelled here as a definite tagged rendering. -/
def cellToString : CellVal → String
  | .blank => ""
  | .str s => s
  | .date ms => "[Date " ++ toString ms ++ "]"

/-- `str_(v)` = `String(v || "").trim()` (Full_Google_AppsScript.gs). -/
def str_ (v : CellVal) : String := jsTrim (cellToString v)

/-- `isValidDate_(d)` = `d instanceof Date && !isNaN(d.getTime())`; a
`CellVal.date` always carries a finite timestamp. -/
def isValidDate_ : CellVal → Bool
  | .date _ => true
  | _ => false

/-- The decoded bid record produced by `readBidRow_`: every field a
trimmed string except the two date cells, which are kept raw. -/
structure Bid where
  bidId : String := ""
  bidName : String := ""
  client : String := ""
  postingUrl : String := ""
  dueDate : CellVal := .blank
  walkDateTime : CellVal := .blank
  walkLocation : String := ""
  ownerName : String := ""
  ownerEmail : String := ""
  status : String := ""
  rfpSource : String := ""
  rfpAttachYN : String := ""
  driveFolderUrl : String := ""
  rfpInFolderUrl : String := ""
  draftUrl : String := ""
  finalUrl : String := ""
  notes : String := ""
  dueEventId : String := ""
  walkEventId : String := ""
  lastHash : String := ""
  notified : String := ""
deriving DecidableEq, Repr

/-! ## Status rules engine (`applyAutoStatus_`) -/

/-- `LOCKED_STATUSES` (Full_Google_AppsScript.gs line 62). -/
def LOCKED_STATUSES : List String := ["Won", "Lost", "No Bid", "On Hold"]

/-- `applyAutoStatus_(bid)` (Full_Google_AppsScript.gs lines 635-650),
as a pure function on the bid record (the source mutates `bid.status`
in place; nothing else is touched). -/
def applyAutoStatus_ (bid : Bid) : Bid :=
  let current := jsTrim bid.status
  if current ∈ LOCKED_STATUSES then bid
  else
    let hasWalk := isValidDate_ bid.walkDateTime
    let hasDraft := bid.draftUrl ≠ ""
    let hasFinal := bid.finalUrl ≠ ""
    if hasFinal then { bid with status := "Submitted" }
    else if hasDraft ∧ (current = "Open" ∨ current = "Walkthrough Scheduled") then
      { bid with status := "In Progress" }
    else if hasWalk ∧ current = "Open" then
      { bid with status := "Walkthrough Scheduled" }
    else bid

/-! ## SHA-256

`computeHash_` pins `Utilities.DigestAlgorithm.SHA_256`; the digest is
implemented here concretely (FIPS 180-4) over byte lists, with the
signed-byte-to-hex post-processing of the source collapsing to ordinary
lowercase hex. -/

/-- `2^32`, the word modulus of SHA-256. -/
def m32 : Nat := 4294967296

/-- Right-rotation of a 32-bit word. -/
def rotr (n x : Nat) : Nat := ((x >>> n) ||| (x <<< (32 - n))) % m32

/-- SHA-256 Σ₀. -/
def bsig0 (x : Nat) : Nat := (rotr 2 x) ^^^ (rotr 13 x) ^^^ (rotr 22 x)

/-- SHA-256 Σ₁. -/
def bsig1 (x : Nat) : Nat := (rotr 6 x) ^^^ (rotr 11 x) ^^^ (rotr 25 x)

/-- SHA-256 σ₀. -/
def ssig0 (x : Nat) : Nat := (rotr 7 x) ^^^ (rotr 18 x) ^^^ (x >>> 3)

/-- SHA-256 σ₁. -/
def ssig1 (x : Nat) : Nat := (rotr 17 x) ^^^ (rotr 19 x) ^^^ (x >>> 10)

/-- SHA-256 choose. -/
def chf (x y z : Nat) : Nat := (x &&& y) ^^^ ((x ^^^ 4294967295) &&& z)

/-- SHA-256 majority. -/
def majf (x y z : Nat) : Nat := (x &&& y) ^^^ (x &&& z) ^^^ (y &&& z)

/-- The 64 SHA-256 round constants. -/
def shaK : List Nat := [
  1116352408, 1899447441, 3049323471, 3921009573, 961987163,
  1508970993, 2453635748, 2870763221, 3624381080, 310598401,
  607225278, 1426881987, 1925078388, 2162078206, 2614888103,
  3248222580, 3835390401, 4022224774, 264347078, 604807628,
  770255983, 1249150122, 1555081692, 1996064986, 2554220882,
  2821834349, 2952996808, 3210313671, 3336571891, 3584528711,
  113926993, 338241895, 666307205, 773529912, 1294757372,
  1396182291, 1695183700, 1986661051, 2177026350, 2456956037,
  2730485921, 2820302411, 3259730800, 3345764771, 3516065817,
  3600352804, 4094571909, 275423344, 430227734, 506948616,
  659060556, 883997877, 958139571, 1322822218, 1537002063,
  1747873779, 1955562222, 2024104815, 2227730452, 2361852424,
  2428436474, 2756734187, 3204031479, 3329325298]

/-- SHA-256 message padding over bytes. -/
def shaPad (msg : List Nat) : List Nat :=
  let len := msg.length
  let bitLen := 8 * len
  let padZeros := (64 - ((len + 9) % 64)) % 64
  msg ++ [0x80] ++ List.replicate padZeros 0 ++
    [(bitLen >>> 56) % 256, (bitLen >>> 48) % 256, (bitLen >>> 40) % 256, (bitLen >>> 32) % 256,
     (bitLen >>> 24) % 256, (bitLen >>> 16) % 256, (bitLen >>> 8) % 256, bitLen % 256]

/-- Big-endian 32-bit words from bytes. -/
def toWords : List Nat → List Nat
  | a :: b :: c :: d :: rest => (a * 16777216 + b * 65536 + c * 256 + d) :: toWords rest
  | _ => []

/-- 16-word blocks of a padded message. -/
def toBlocks (ws : List Nat) : List (List Nat) :=
  (List.range (ws.length / 16)).map (fun i => (ws.drop (16 * i)).take 16)

/-- Message-schedule extension: `rev` holds the schedule so far, most
recent word first; produces `n` more words (still reversed). -/
def extendW (rev : List Nat) : Nat → List Nat
  | 0 => rev
  | n + 1 =>
    let w2 := rev.getD 1 0
    let w7 := rev.getD 6 0
    let w15 := rev.getD 14 0
    let w16 := rev.getD 15 0
    extendW (((ssig1 w2 + w7 + ssig0 w15 + w16) % m32) :: rev) n

/-- The eight SHA-256 working registers. -/
structure H8 where
  a : Nat
  b : Nat
  c : Nat
  d : Nat
  e : Nat
  f : Nat
  g : Nat
  h : Nat

/-- One SHA-256 compression round. -/
def shaRound (st : H8) (kw : Nat × Nat) : H8 :=
  let t1 := (st.h + bsig1 st.e + chf st.e st.f st.g + kw.1 + kw.2) % m32
  let t2 := (bsig0 st.a + majf st.a st.b st.c) % m32
  ⟨(t1 + t2) % m32, st.a, st.b, st.c, (st.d + t1) % m32, st.e, st.f, st.g⟩

/-- SHA-256 block compression. -/
def compress (st : H8) (blk : List Nat) : H8 :=
  let w := (extendW blk.reverse 48).reverse
  let fin := (shaK.zip w).foldl shaRound st
  ⟨(st.a + fin.a) % m32, (st.b + fin.b) % m32, (st.c + fin.c) % m32, (st.d + fin.d) % m32,
   (st.e + fin.e) % m32, (st.f + fin.f) % m32, (st.g + fin.g) % m32, (st.h + fin.h) % m32⟩

/-- Lowercase hex digit. -/
def hexDigit (n : Nat) : Char :=
  if n < 10 then Char.ofNat (48 + n) else Char.ofNat (87 + n)

/-- Eight lowercase hex digits of a 32-bit word. -/
def word8hex (w : Nat) : List Char :=
  [hexDigit ((w >>> 28) % 16), hexDigit ((w >>> 24) % 16), hexDigit ((w >>> 20) % 16),
   hexDigit ((w >>> 16) % 16), hexDigit ((w >>> 12) % 16), hexDigit ((w >>> 8) % 16),
   hexDigit ((w >>> 4) % 16), hexDigit (w % 16)]

/-- SHA-256 of a byte list as a 64-character lowercase hex string — the
value of the digest-and-hex-join pipeline at the end of `computeHash_`. -/
def sha256hex (msg : List Nat) : String :=
  let st0 : H8 := ⟨1779033703, 3144134277, 1013904242, 2773480762,
                   1359893119, 2600822924, 528734635, 1541459225⟩
  let st := (toBlocks (toWords (shaPad msg))).foldl compress st0
  String.mk (word8hex st.a ++ word8hex st.b ++ word8hex st.c ++ word8hex st.d ++
             word8hex st.e ++ word8hex st.f ++ word8hex st.g ++ word8hex st.h)

/-! ## Change detector (`computeHash_`) -/

/-- JSON string escaping as performed by `JSON.stringify` on the BMP
(quote, backslash, named control escapes, `\u00xx` for the rest). -/
def jsonEscapeChar (c : Char) : List Char :=
  if c = '"' then ['\\', '"']
  else if c = '\\' then ['\\', '\\']
  else if c.toNat = 8 then ['\\', 'b']
  else if c = '\t' then ['\\', 't']
  else if c = '\n' then ['\\', 'n']
  else if c.toNat = 12 then ['\\', 'f']
  else if c = '\r' then ['\\', 'r']
  else if c.toNat < 32 then ['\\', 'u', '0', '0', hexDigit (c.toNat / 16), hexDigit (c.toNat % 16)]
  else [c]

/-- A JSON string literal. -/
def jsonStr (s : String) : String :=
  String.mk ('"' :: (s.toList.map jsonEscapeChar).flatten ++ ['"'])

/-- A JSON object of string-valued fields, in insertion order, as
`JSON.stringify` prints it. -/
def jsonObj (fields : List (String × String)) : String :=
  "\x7b" ++ String.intercalate "," (fields.map fun kv => jsonStr kv.1 ++ ":" ++ jsonStr kv.2) ++ "\x7d"

/-- UTF-8 encoding of one code point. -/
def utf8Char (c : Char) : List Nat :=
  let n := c.toNat
  if n < 0x80 then [n]
  else if n < 0x800 then [0xc0 + n / 64, 0x80 + n % 64]
  else if n < 0x10000 then [0xe0 + n / 4096, 0x80 + (n / 64) % 64, 0x80 + n % 64]
  else [0xf0 + n / 262144, 0x80 + (n / 4096) % 64, 0x80 + (n / 64) % 64, 0x80 + n % 64]

/-- UTF-8 bytes of a string (the encoding `Utilities.computeDigest`
applies to its string argument). -/
def utf8Bytes (s : String) : List Nat := (s.toList.map utf8Char).flatten

/-- The per-run context consumed by `computeHash_`: the only part it
touches is `ctx.tz` through `Utilities.formatDate(d, ctx.tz,
"yyyy-MM-dd'T'HH:mm:ss")`, an external platform formatter modelled as an
injected function from the date's timestamp to its rendering. -/
structure HashCtx where
  formatIso : Int → String

/-- `fmtISO_(ctx, d)` (Full_Google_AppsScript.gs line 1205). -/
def fmtISO_ (ctx : HashCtx) (d : CellVal) : String :=
  if isValidDate_ d then
    match d with
    | .date ms => ctx.formatIso ms
    | _ => ""
  else ""

/-- The raw `JSON.stringify` serialization hashed by `computeHash_`
(Full_Google_AppsScript.gs lines 1210-1218): exactly these sixteen
fields, in source order. -/
def hashSerialization (ctx : HashCtx) (bid : Bid) : String :=
  jsonObj [("bidId", bid.bidId), ("bidName", bid.bidName), ("client", bid.client),
    ("postingUrl", bid.postingUrl), ("dueDate", fmtISO_ ctx bid.dueDate),
    ("walkDateTime", fmtISO_ ctx bid.walkDateTime), ("walkLocation", bid.walkLocation),
    ("ownerName", bid.ownerName), ("ownerEmail", bid.ownerEmail), ("status", bid.status),
    ("driveFolderUrl", bid.driveFolderUrl), ("rfpSource", bid.rfpSource),
    ("rfpInFolderUrl", bid.rfpInFolderUrl), ("draftUrl", bid.draftUrl),
    ("finalUrl", bid.finalUrl), ("notes", bid.notes)]

/-- `computeHash_(bid, ctx)` (Full_Google_AppsScript.gs lines 1209-1222). -/
def computeHash_ (bid : Bid) (ctx : HashCtx) : String :=
  sha256hex (utf8Bytes (hashSerialization ctx bid))

/-! ## Status decoding — the two `normalizeStatus` functions

The repository has two status decoders: the server library
`src/lib/sheets.js` (canonical set only, no legacy mapping) and the
client-side sheets library (legacy mapping table `LEGACY_STATUS_MAP`). -/

namespace SheetsLib

/-- The `allowed` set of `normalizeStatus` (src/lib/sheets.js line 156). -/
def allowedStatuses : List String :=
  ["New", "Reviewing", "Submitted", "Won", "Lost", "Archived"]

/-- `normalizeStatus(status)` (src/lib/sheets.js lines 155-160). -/
def normalizeStatus (status : String) : String :=
  let raw := jsTrim status
  if raw = "" then "New"
  else if raw ∈ allowedStatuses then raw else "New"

end SheetsLib

namespace ClientLib

/-- `STATUS_OPTIONS` of the client-side sheets library. -/
def STATUS_OPTIONS : List String :=
  ["New", "Reviewing", "Submitted", "Won", "Lost", "Archived"]

/-- `LEGACY_STATUS_MAP` of the client-side sheets library, as own-property
lookup (the inherited-property corner of JS object access only ever
produces values outside `STATUS_OPTIONS`, which land on the same `"New"`
fallback as a missed lookup). -/
def LEGACY_STATUS_MAP (raw : String) : Option String :=
  if raw = "Open" then some "New"
  else if raw = "Walkthrough Scheduled" then some "Reviewing"
  else if raw = "In Progress" then some "Reviewing"
  else if raw = "No Bid" then some "Lost"
  else if raw = "On Hold" then some "Reviewing"
  else none

/-- The keys of `LEGACY_STATUS_MAP`. -/
def legacyKeys : List String :=
  ["Open", "Walkthrough Scheduled", "In Progress", "No Bid", "On Hold"]

/-- `normalizeStatus(status)` of the client-side sheets library:
`LEGACY_STATUS_MAP[raw] || raw || 'New'` filtered through
`STATUS_OPTIONS`. -/
def normalizeStatus (status : String) : String :=
  let raw := jsTrim status
  let mapped := match LEGACY_STATUS_MAP raw with
    | some v => v
    | none => if raw = "" then "New" else raw
  if mapped ∈ STATUS_OPTIONS then mapped else "New"

end ClientLib

/-! ## Bid id generation — the two generators -/

/-- `String(n).padStart(3, "0")`. -/
def padStart3 (s : String) : String :=
  if 3 ≤ s.length then s else String.mk (List.replicate (3 - s.length) '0') ++ s

/-- Value of a list of decimal digit characters. -/
def digitsVal (cs : List Char) : Nat :=
  cs.foldl (fun a c => 10 * a + (c.toNat - 48)) 0

/-- The integer fragment of the JavaScript `Number(string)` conversion:
whitespace-trimmed; the empty string is `0`; an optional sign followed by
decimal digits is that integer.  Anything else (fractional, exponent and
hex forms included) is `none`, which `buildNextBidId` skips exactly as it
skips `NaN`; non-integer finite values never arise from ids this code
generates or the claims mention. -/
def jsNumberInt (s : String) : Option Int :=
  let cs := (jsTrim s).toList
  match cs with
  | [] => some 0
  | '-' :: rest => if rest ≠ [] ∧ rest.all Char.isDigit then some (-(digitsVal rest : Int)) else none
  | '+' :: rest => if rest ≠ [] ∧ rest.all Char.isDigit then some (digitsVal rest) else none
  | _ => if cs.all Char.isDigit then some (digitsVal cs) else none

namespace SheetsLib

/-- `buildNextBidId(existingBids)` (src/lib/sheets.js lines 242-253); the
ambient `new Date().getFullYear()` is the `year` parameter, and the
input is the list of existing `bidId` strings. -/
def buildNextBidId (existingIds : List String) (year : Nat) : String :=
  let pre := "BID-" ++ toString year ++ "-"
  let maxSeq := existingIds.foldl (fun acc id =>
    if jsStartsWith id pre then
      match jsNumberInt (jsDropChars id pre.length) with
      | some n => max acc n
      | none => acc
    else acc) (0 : Int)
  pre ++ padStart3 (toString (maxSeq + 1))

end SheetsLib

/-- One attempt of `/BID-\d{4}-(\d{3})/` at the head of the string:
literal `BID-`, exactly four digits, `-`, then three digits captured. -/
def tryBidPatAt : List Char → Option Nat
  | 'B' :: 'I' :: 'D' :: '-' :: y1 :: y2 :: y3 :: y4 :: '-' :: s1 :: s2 :: s3 :: _ =>
      if y1.isDigit ∧ y2.isDigit ∧ y3.isDigit ∧ y4.isDigit ∧
         s1.isDigit ∧ s2.isDigit ∧ s3.isDigit
      then some (digitsVal [s1, s2, s3]) else none
  | _ => none

/-- `existingId.match(/BID-\d{4}-(\d{3})/)`: first match anywhere in the
string, returning `parseInt` of the captured three-digit group. -/
def bidSeqMatch : List Char → Option Nat
  | [] => none
  | c :: rest =>
      match tryBidPatAt (c :: rest) with
      | some n => some n
      | none => bidSeqMatch rest

/-- The id-generation slice of `addBidFromApi_`
(AppsScript_API_Endpoint.gs lines 170-184): scan every existing id for
`/BID-\d{4}-(\d{3})/` — note, with no restriction to the current year —
take the maximum captured sequence, and emit
`'BID-' + year + '-' + String(maxSeq + 1).padStart(3, '0')`. -/
def addBidFromApi_nextId (existingIds : List String) (year : Nat) : String :=
  let maxSeq := existingIds.foldl (fun acc id =>
    match bidSeqMatch id.toList with
    | some seq => if acc < seq then seq else acc
    | none => acc) 0
  "BID-" ++ toString year ++ "-" ++ padStart3 (toString (maxSeq + 1))

/-! ## COMMBUYS listing parser (`parseCommbuysResults_`)

The source parses uncontrolled HTML with a handful of fixed regexes.
Each regex is rendered here as a hand-rolled scanner with the exact
leftmost-match/backtracking semantics of the JS engine on that pattern;
global iteration is fuel-indexed (fuel = input length + 1 always
suffices, since every step consumes at least one character). -/

/-- Case-insensitive literal-prefix match; on success returns the rest. -/
def matchCI : List Char → List Char → Option (List Char)
  | [], cs => some cs
  | _, [] => none
  | p :: ps, c :: cs => if lowerChar p = lowerChar c then matchCI ps cs else none

/-- Case-sensitive literal-prefix match. -/
def matchExact : List Char → List Char → Option (List Char)
  | [], cs => some cs
  | _, [] => none
  | p :: ps, c :: cs => if p = c then matchExact ps cs else none

/-- Split at the first (case-insensitive) occurrence of `marker`:
returns the part before it and the part after it. -/
def splitAtMarkerCI (marker : List Char) : List Char → Option (List Char × List Char)
  | [] => match matchCI marker [] with
          | some rest => some ([], rest)
          | none => none
  | c :: cs =>
    match matchCI marker (c :: cs) with
    | some rest => some ([], rest)
    | none =>
      match splitAtMarkerCI marker cs with
      | some (pre, rest) => some (c :: pre, rest)
      | none => none

/-- Does a case-insensitive occurrence of `pat` appear anywhere? -/
def containsCI (pat : List Char) : List Char → Bool
  | [] => (matchCI pat []).isSome
  | c :: cs => (matchCI pat (c :: cs)).isSome || containsCI pat cs

/-- Opening-tag step of `/<TAG[^>]*>/i` at the head: literal `<TAG`,
a greedy run of non-`>` characters, then `>`; returns the rest. -/
def tagOpenAt (tag : List Char) (cs : List Char) : Option (List Char) :=
  match matchCI ('<' :: tag) cs with
  | none => none
  | some rest =>
    match rest.dropWhile (fun c => c ≠ '>') with
    | '>' :: tail => some tail
    | _ => none

/-- One attempt of `/<TAG[^>]*>([\s\S]*?)<\/TAG>/i` at the head:
the body is the lazy capture up to the first `</TAG>`. -/
def tagMatchAt (tag : List Char) (cs : List Char) : Option (List Char × List Char) :=
  match tagOpenAt tag cs with
  | none => none
  | some body => splitAtMarkerCI ('<' :: '/' :: (tag ++ ['>'])) body

/-- Global iteration of the tag-section regex (the `while (rowMatch =
rowPattern.exec(html))` loops): all captured bodies, in order. -/
def tagSectionsF (tag : List Char) : Nat → List Char → List (List Char)
  | 0, _ => []
  | _ + 1, [] => []
  | fuel + 1, c :: cs =>
    match tagMatchAt tag (c :: cs) with
    | some (cap, rest) => cap :: tagSectionsF tag fuel rest
    | none => tagSectionsF tag fuel cs

/-- The keyword alternative `(?:bidDetail|BidDetail|publicBidOpen)` under
the `/i` flag: does the quoted region contain either word? -/
def hrefKeywordOk (region : List Char) : Bool :=
  containsCI ("bidDetail".toList) region || containsCI ("publicBidOpen".toList) region

/-- One attempt of `/href="([^"]*(?:bidDetail|BidDetail|publicBidOpen)[^"]*)"/i`
at the head: the capture is exactly the region up to the closing quote,
accepted when it holds a keyword. -/
def hrefMatchAt (cs : List Char) : Option (List Char × List Char) :=
  match matchCI ("href=".toList ++ ['"']) cs with
  | none => none
  | some rest =>
    match splitAtMarkerCI ['"'] rest with
    | none => none
    | some (region, afterQuote) =>
      if hrefKeywordOk region then some (region, afterQuote) else none

/-- `rowHtml.match(linkPattern)`: first position where the href pattern
matches; returns the captured region. -/
def linkScanF : Nat → List Char → Option (List Char)
  | 0, _ => none
  | _ + 1, [] => none
  | fuel + 1, c :: cs =>
    match hrefMatchAt (c :: cs) with
    | some (region, _) => some region
    | none => linkScanF fuel cs

/-- One pass of `replace(/<[^>]+>/g, "")`: tags (a `<`, at least one
non-`>`, then `>`) are removed, everything else is kept. -/
def stripTagsF : Nat → List Char → List Char
  | 0, cs => cs
  | _ + 1, [] => []
  | fuel + 1, '<' :: cs =>
    (match cs with
     | c2 :: _ =>
       if c2 = '>' then '<' :: stripTagsF fuel cs
       else
         match cs.dropWhile (fun c => c ≠ '>') with
         | '>' :: tail => stripTagsF fuel tail
         | _ => '<' :: stripTagsF fuel cs
     | [] => ['<'])
  | fuel + 1, c :: cs => c :: stripTagsF fuel cs

/-- Exactly `cnt` decimal digits off the head. -/
def tryDigits : Nat → List Char → Option (List Char × List Char)
  | 0, cs => some ([], cs)
  | n + 1, c :: cs =>
      if c.isDigit then
        match tryDigits n cs with
        | some (d, r) => some (c :: d, r)
        | none => none
      else none
  | _ + 1, [] => none

/-- `/\d{l1}\/\d{l2}\/\d{l3}/` with exact run lengths at the head. -/
def tryDateExact (l1 l2 l3 : Nat) (cs : List Char) : Option (List Char) :=
  match tryDigits l1 cs with
  | some (d1, '/' :: r1) =>
    (match tryDigits l2 r1 with
     | some (d2, '/' :: r2) =>
       (match tryDigits l3 r2 with
        | some (d3, _) => some (d1 ++ '/' :: d2 ++ '/' :: d3)
        | none => none)
     | _ => none)
  | _ => none

/-- `/(\d{1,2}\/\d{1,2}\/\d{2,4})/` at a fixed start, in the greedy
backtracking order of the JS engine. -/
def tryDateAt (cs : List Char) : Option (List Char) :=
  (tryDateExact 2 2 4 cs).orElse fun _ => (tryDateExact 2 2 3 cs).orElse fun _ =>
  (tryDateExact 2 2 2 cs).orElse fun _ => (tryDateExact 2 1 4 cs).orElse fun _ =>
  (tryDateExact 2 1 3 cs).orElse fun _ => (tryDateExact 2 1 2 cs).orElse fun _ =>
  (tryDateExact 1 2 4 cs).orElse fun _ => (tryDateExact 1 2 3 cs).orElse fun _ =>
  (tryDateExact 1 2 2 cs).orElse fun _ => (tryDateExact 1 1 4 cs).orElse fun _ =>
  (tryDateExact 1 1 3 cs).orElse fun _ => tryDateExact 1 1 2 cs

/-- First date-like match anywhere in a cell. -/
def dateScan : List Char → Option (List Char)
  | [] => none
  | c :: cs =>
    match tryDateAt (c :: cs) with
    | some m => some m
    | none => dateScan cs

/-- The due-date loop over cells: first cell with a date-like match. -/
def findDueDate : List String → String
  | [] => ""
  | cell :: rest =>
    match dateScan cell.toList with
    | some m => String.mk m
    | none => findDueDate rest

/-- JS falsy-chain `a || b` on strings. -/
def jsOr (a b : String) : String := if a = "" then b else a

/-- The absolute-URL fixup applied to every captured href. -/
def buildAbsUrl (u : String) : String :=
  if jsStartsWith u "/" then "https://www.commbuys.com" ++ u
  else if !(jsStartsWith u "http") then "https://www.commbuys.com/bso/external/" ++ u
  else u

/-- A discovered COMMBUYS listing record. -/
structure CommbuysBid where
  bidNumber : String
  title : String
  agency : String
  dueDate : String
  url : String
  bidType : String
deriving DecidableEq, Repr

/-- Strategy-1 row handler: link lookup, cell extraction
(strip tags, trim), minimum two cells, URL fixup and field assembly. -/
def rowToBid (rowHtml : List Char) : Option CommbuysBid :=
  match linkScanF (rowHtml.length + 1) rowHtml with
  | none => none
  | some urlRegion =>
    let cells := (tagSectionsF ("td".toList) (rowHtml.length + 1) rowHtml).map
      (fun cell => jsTrim (String.mk (stripTagsF (cell.length + 1) cell)))
    if cells.length < 2 then none
    else
      some { bidNumber := jsOr (cells.getD 0 "") "",
             title := jsOr (cells.getD 1 "") (jsOr (cells.getD 0 "") "Unknown Bid"),
             agency := if 2 < cells.length then cells.getD 2 "" else "",
             dueDate := findDueDate cells,
             url := buildAbsUrl (String.mk urlRegion),
             bidType := if 3 < cells.length then cells.getD 3 "" else "" }

/-- One attempt of the strategy-2 pattern
`/href="([^"]*(?:bidDetail|publicBidOpen)[^"]*)"[^>]*>([^<]+)</gi`
at the head: the href step, then `[^>]*>`, then a non-empty text run up
to a mandatory `<`. -/
def altMatchAt (cs : List Char) : Option (List Char × List Char × List Char) :=
  match hrefMatchAt cs with
  | none => none
  | some (region, afterQuote) =>
    match afterQuote.dropWhile (fun c => c ≠ '>') with
    | '>' :: r3 =>
      let title := r3.takeWhile (fun c => c ≠ '<')
      (match r3.dropWhile (fun c => c ≠ '<') with
       | '<' :: r5 => if title = [] then none else some (region, title, r5)
       | _ => none)
    | _ => none

/-- Global iteration of the strategy-2 pattern. -/
def altScanF : Nat → List Char → List (List Char × List Char)
  | 0, _ => []
  | _ + 1, [] => []
  | fuel + 1, c :: cs =>
    match altMatchAt (c :: cs) with
    | some (region, title, rest) => (region, title) :: altScanF fuel rest
    | none => altScanF fuel cs

/-- Strategy-2 assembly with its in-loop URL dedup
(`bids.some(b => b.url === url)`). -/
def altToBids (pairs : List (List Char × List Char)) : List CommbuysBid :=
  pairs.foldl (fun acc p =>
    let url := buildAbsUrl (String.mk p.1)
    if acc.any (fun b => b.url = url) then acc
    else acc ++ [{ bidNumber := "", title := jsTrim (String.mk p.2), agency := "",
                   dueDate := "", url := url, bidType := "" }]) []

/-- `parseCommbuysResults_(html)` (Full_Google_AppsScript.gs lines
359-442): table-row strategy first, link-extraction fallback when it
finds nothing. -/
def parseCommbuysResults_ (html : String) : List CommbuysBid :=
  let cs := html.toList
  let bids := (tagSectionsF ("tr".toList) (cs.length + 1) cs).filterMap rowToBid
  if bids.length = 0 then altToBids (altScanF (cs.length + 1) cs) else bids

/-! ## Discovery poller (`pollCommbuys`) -/

/-- `s.split(",")` — split at every comma, keeping empty pieces. -/
def splitCommaAux : List Char → List Char → List String
  | [], acc => [String.mk acc.reverse]
  | ',' :: cs, acc => String.mk acc.reverse :: splitCommaAux cs []
  | c :: cs, acc => splitCommaAux cs (c :: acc)

/-- `s.split(",")`. -/
def splitComma (s : String) : List String := splitCommaAux s.toList []

/-- `(settings.COMMBUYS_KEYWORDS || "").split(",").map(s =>
s.trim().toLowerCase()).filter(Boolean)`. -/
def pollKeywords (s : String) : List String :=
  ((splitComma s).map (fun k => jsLower (jsTrim k))).filter (fun k => k ≠ "")

/-- One data row of the COMMBUYS staging sheet, columns B..I.  The
column-A discovery timestamp is a write-only `new Date()` the pipeline
never reads back, so it is omitted from the model. -/
structure StagingRow where
  bidNumber : String
  title : String
  url : String
  agency : String
  dueDate : String
  bidType : String
  keyword : String
  imported : String
deriving DecidableEq, Repr

/-- `getStagingUrls_(sheet)` (Full_Google_AppsScript.gs lines 459-468):
the trimmed non-empty URL cells (column D) of the staging data rows. -/
def getStagingUrls_ (staging : List StagingRow) : List String :=
  (staging.map (fun r => jsTrim r.url)).filter (fun u => u ≠ "")

/-- `getExistingBidUrls_(ctx)` (lines 447-454): trimmed non-empty
`postingUrl` cells of the Bids sheet (header row at index 0 skipped). -/
def getExistingBidUrls_ (bidsValues : List (List CellVal)) : List String :=
  ((bidsValues.drop 1).map (fun row => jsTrim (cellToString (row.getD 3 .blank)))).filter
    (fun u => u ≠ "")

/-- The COMMBUYS poller's view of the outside world: the HTTP fetch for
a keyword (network errors are thrown, hence `Except`), the platform's
`new Date(string)` parser, and the generated `CB-…` bid id for the n-th
append of the run (timestamp + `Math.random`, both ambient). -/
structure PollEnv where
  fetchPage : String → Except String (Nat × String)
  parseDate : String → Option Int
  freshBidId : Nat → String

/-- The settings `pollCommbuys` consumes. -/
structure PollSettings where
  enabled : String := "FALSE"
  keywordsRaw : String := ""
  autoImport : String := "FALSE"
deriving Repr

/-- `searchCommbuys_(ctx, keyword)` (lines 300-324): fetch, empty list
on a non-200 status, parse otherwise. -/
def searchCommbuys_ (env : PollEnv) (kw : String) : Except String (List CommbuysBid) :=
  match env.fetchPage kw with
  | .error e => .error e
  | .ok (code, body) => if code = 200 then .ok (parseCommbuysResults_ body) else .ok []

/-- `parsedDue` of `appendToBidsSheet_`: `new Date(cb.dueDate)` when the
string is non-empty and parses, else the empty-string cell. -/
def parsedDueCell (parseDate : String → Option Int) (s : String) : CellVal :=
  if s ≠ "" then
    match parseDate s with
    | some ms => .date ms
    | none => .str ""
  else .str ""

/-- The 21-cell row written by `appendToBidsSheet_` (lines 523-543). -/
def appendToBidsSheet_row (freshId : String) (parsedDue : CellVal) (cb : CommbuysBid) :
    List CellVal :=
  [.str freshId, .str cb.title, .str cb.agency, .str cb.url, parsedDue,
   .str "", .str "", .str "", .str "", .str "Open", .str "",
   .str "", .str "", .str "", .str "", .str "",
   .str ("Auto-discovered from COMMBUYS. Bid #: " ++ cb.bidNumber ++ ". Type: " ++ cb.bidType),
   .str "", .str "", .str "", .str ""]

/-- The staging row appended by `appendToStaging_` (lines 506-518). -/
def appendToStaging_row (cb : CommbuysBid) (keyword : String) : StagingRow :=
  ⟨cb.bidNumber, cb.title, cb.url, cb.agency, cb.dueDate, cb.bidType, keyword, ""⟩

/-- The mutable state threaded through the poll loop: the two sheets,
the in-memory staging-URL set, the new-bid counter and the number of
appends so far (feeding the fresh-id source). -/
structure PollLoopState where
  bidsValues : List (List CellVal)
  staging : List StagingRow
  stagingUrls : List String
  totalNew : Nat
  appendIdx : Nat
deriving Repr

/-- The body of the inner candidate loop of `pollCommbuys` (lines
265-277): dedup against both URL sets, then stage or auto-import. -/
def pollCandidate (env : PollEnv) (st : PollSettings) (existingUrls : List String)
    (kw : String) (ls : PollLoopState) (cb : CommbuysBid) : PollLoopState :=
  if cb.url ∈ existingUrls ∨ cb.url ∈ ls.stagingUrls then ls
  else
    let ls' :=
      if st.autoImport = "TRUE" then
        { ls with
            bidsValues := ls.bidsValues ++
              [appendToBidsSheet_row (env.freshBidId ls.appendIdx)
                (parsedDueCell env.parseDate cb.dueDate) cb],
            appendIdx := ls.appendIdx + 1 }
      else
        { ls with staging := ls.staging ++ [appendToStaging_row cb kw] }
    { ls' with stagingUrls := ls'.stagingUrls ++ [cb.url], totalNew := ls'.totalNew + 1 }

/-- One keyword of the poll loop, with its per-keyword `try/catch`. -/
def pollKeyword (env : PollEnv) (st : PollSettings) (existingUrls : List String)
    (ls : PollLoopState) (kw : String) : PollLoopState :=
  match searchCommbuys_ env kw with
  | .error _ => ls
  | .ok cbs => cbs.foldl (pollCandidate env st existingUrls kw) ls

/-- The observable outcome of one `pollCommbuys` run. -/
structure PollResult where
  bidsValues : List (List CellVal)
  staging : List StagingRow
  totalNew : Nat
deriving Repr

/-- `pollCommbuys()` (Full_Google_AppsScript.gs lines 237-292): abort
when disabled or keyword-less, build the two dedup sets once, then
stage/import every genuinely new candidate per keyword. -/
def pollCommbuys (env : PollEnv) (st : PollSettings) (bidsValues : List (List CellVal))
    (staging : List StagingRow) : PollResult :=
  if jsUpper st.enabled ≠ "TRUE" then ⟨bidsValues, staging, 0⟩
  else
    let kws := pollKeywords st.keywordsRaw
    if kws.length = 0 then ⟨bidsValues, staging, 0⟩
    else
      let existingUrls := getExistingBidUrls_ bidsValues
      let ls := kws.foldl (pollKeyword env st existingUrls)
        ⟨bidsValues, staging, getStagingUrls_ staging, 0, 0⟩
      ⟨ls.bidsValues, ls.staging, ls.totalNew⟩

/-! ## Sync orchestrator (`syncAll`) and its per-row pipeline -/

/-- `s.substring(0, 180)`. -/
def jsTake (s : String) (n : Nat) : String := String.mk (s.toList.take n)

/-- A Drive id character: `[a-zA-Z0-9_-]`. -/
def isDriveIdChar (c : Char) : Bool := c.isAlphanum ∨ c = '_' ∨ c = '-'

/-- Scan for `MARKER` followed by a greedy run of at least 15 id
characters (`/\/d\/([a-zA-Z0-9_-]{15,})/` and the `folders` variant). -/
def driveIdScan (marker : List Char) : List Char → Option String
  | [] => none
  | c :: cs =>
    match matchExact marker (c :: cs) with
    | some rest =>
      let run := rest.takeWhile isDriveIdChar
      if 15 ≤ run.length then some (String.mk run) else driveIdScan marker cs
    | none => driveIdScan marker cs

/-- Scan for `/[?&]id=([a-zA-Z0-9_-]{15,})/`. -/
def driveIdQueryScan : List Char → Option String
  | [] => none
  | c :: cs =>
    if c = '?' ∨ c = '&' then
      match matchExact ("id=".toList) cs with
      | some rest =>
        let run := rest.takeWhile isDriveIdChar
        if 15 ≤ run.length then some (String.mk run) else driveIdQueryScan cs
      | none => driveIdQueryScan cs
    else driveIdQueryScan cs

/-- `extractDriveId_(input)` (lines 892-908): a bare id is accepted
as-is (a 15-plus run of id characters can never contain `/`, so the
`!s.includes("/")` conjunct is implied); otherwise the three URL
patterns in order; otherwise a thrown error. -/
def extractDriveId_ (input : String) : Except String String :=
  let s := jsTrim input
  let cs := s.toList
  if 15 ≤ cs.length ∧ cs.all isDriveIdChar then .ok s
  else
    match driveIdScan ("/d/".toList) cs with
    | some id => .ok id
    | none =>
      match driveIdQueryScan cs with
      | some id => .ok id
      | none =>
        match driveIdScan ("/folders/".toList) cs with
        | some id => .ok id
        | none => .error ("Cannot parse Drive ID from: " ++ s)

/-- The orchestrator's view of the external services.  Each fallible
platform call is an injected `Except`-valued function; calls the source
wraps in its own `try/catch` (`safeGetEvent_`) are total.  Identifiers
are passed where the source passes fetched platform objects. -/
structure SyncEnv where
  createFolderIn : String → String → Except String String
  moveFileToFolder : String → String → Except String String
  makeCopy : String → String → String → Except String String
  copyTemplate : String → String → String → Except String String
  createBlankDocIn : String → String → Except String String
  calGetEvent : String → Option String
  createAllDayEvent : String → Int → String → Except String String
  createTimedEvent : String → Int → Int → String → String → Except String String
  formatIso : Int → String

/-- The settings `syncAll` consumes, with the `readSettings_` defaults. -/
structure SyncSettings where
  autoCreateDriveFolder : String := "TRUE"
  autoAttachRfp : String := "TRUE"
  autoCreateDocs : String := "TRUE"
  notifyOnNewBid : String := "TRUE"
  notifyOnUpdates : String := "FALSE"
  slackNotifyUpdates : String := "FALSE"
  rfpAction : String := "COPY"
  driveRootFolderId : String := ""
  templateDraftId : String := ""
  templateFinalId : String := ""
  walkDurationMin : String := "60"
deriving Repr

/-- `ensureBidFolder_(ctx, bid)` (lines 846-851). -/
def ensureBidFolder_ (env : SyncEnv) (st : SyncSettings) (bid : Bid) : Except String Bid :=
  if bid.driveFolderUrl ≠ "" then .ok bid
  else
    match env.createFolderIn st.driveRootFolderId (jsTake (bid.bidId ++ " - " ++ bid.bidName) 180) with
    | .error e => .error e
    | .ok url => .ok { bid with driveFolderUrl := url }

/-- `attachRfpIfRequested_(ctx, bid)` (lines 853-867). -/
def attachRfpIfRequested_ (env : SyncEnv) (st : SyncSettings) (bid : Bid) : Except String Bid :=
  if bid.rfpSource = "" ∨ bid.rfpAttachYN ≠ "Y" ∨ bid.driveFolderUrl = "" ∨ bid.rfpInFolderUrl ≠ "" then
    .ok bid
  else
    match extractDriveId_ bid.driveFolderUrl with
    | .error e => .error e
    | .ok folderId =>
      match extractDriveId_ bid.rfpSource with
      | .error e => .error e
      | .ok srcId =>
        let res :=
          if jsUpper (jsOr st.rfpAction "COPY") = "MOVE" then env.moveFileToFolder srcId folderId
          else env.makeCopy srcId (jsTake ("RFP - " ++ bid.bidId ++ " - " ++ bid.bidName) 180) folderId
        match res with
        | .error e => .error e
        | .ok url => .ok { bid with rfpInFolderUrl := url }

/-- `createFromTemplateOrBlank_(folder, templateId, name)` (lines 881-890). -/
def createFromTemplateOrBlank_ (env : SyncEnv) (folderId templateId name : String) :
    Except String String :=
  if templateId ≠ "" then env.copyTemplate templateId name folderId
  else env.createBlankDocIn folderId name

/-- `ensureDocPlaceholders_(ctx, bid)` (lines 869-879). -/
def ensureDocPlaceholders_ (env : SyncEnv) (st : SyncSettings) (bid : Bid) : Except String Bid :=
  if bid.driveFolderUrl = "" then .ok bid
  else
    match extractDriveId_ bid.driveFolderUrl with
    | .error e => .error e
    | .ok folderId =>
      match (if bid.draftUrl = "" then
               createFromTemplateOrBlank_ env folderId st.templateDraftId "Bid Response - Draft"
             else .ok bid.draftUrl) with
      | .error e => .error e
      | .ok draft =>
        match (if bid.finalUrl = "" then
                 createFromTemplateOrBlank_ env folderId st.templateFinalId "Bid Response - Final"
               else .ok bid.finalUrl) with
        | .error e => .error e
        | .ok fin => .ok { bid with draftUrl := draft, finalUrl := fin }

/-- `buildCalendarDescription_(ctx, bid)` (lines 931-949). -/
def buildCalendarDescription_ (env : SyncEnv) (bid : Bid) : String :=
  let base := ["Bid ID: " ++ bid.bidId, "Bid Name: " ++ bid.bidName,
    "Client/Agency: " ++ bid.client,
    "Owner: " ++ bid.ownerName ++ (if bid.ownerEmail ≠ "" then " (" ++ bid.ownerEmail ++ ")" else ""),
    "Status: " ++ bid.status]
  let opt := (if bid.postingUrl ≠ "" then ["Posting: " ++ bid.postingUrl] else []) ++
    (if bid.driveFolderUrl ≠ "" then ["Drive Folder: " ++ bid.driveFolderUrl] else []) ++
    (if bid.rfpInFolderUrl ≠ "" then ["RFP: " ++ bid.rfpInFolderUrl] else []) ++
    (if bid.draftUrl ≠ "" then ["Draft: " ++ bid.draftUrl] else []) ++
    (if bid.finalUrl ≠ "" then ["Final: " ++ bid.finalUrl] else []) ++
    (if bid.notes ≠ "" then ["Notes: " ++ bid.notes] else []) ++
    (if isValidDate_ bid.dueDate then ["Due: " ++ fmtISO_ ⟨env.formatIso⟩ bid.dueDate] else []) ++
    (if isValidDate_ bid.walkDateTime then ["Walkthrough: " ++ fmtISO_ ⟨env.formatIso⟩ bid.walkDateTime] else []) ++
    (if bid.walkLocation ≠ "" then ["Location: " ++ bid.walkLocation] else [])
  String.intercalate "\n" (base ++ opt)

/-- `parseInt(s, 10)` on a duration setting: sign-less digit prefix;
`none` is `NaN`, which downstream turns into an invalid event time the
calendar service rejects. -/
def jsParseIntPrefix (s : String) : Option Int :=
  let t := (jsTrim s).toList
  let run := t.takeWhile Char.isDigit
  if run = [] then none else some (digitsVal run)

/-- `upsertAllDay_(calendar, existingId, …)` (lines 951-960):
`safeGetEvent_` finds the remembered event (update path, returning its
id) or the event is created afresh. -/
def upsertAllDay_ (env : SyncEnv) (existingId title : String) (ms : Int) (desc : String) :
    Except String String :=
  match (if existingId ≠ "" then env.calGetEvent existingId else none) with
  | some foundId => .ok foundId
  | none => env.createAllDayEvent title ms desc

/-- `upsertTimed_` (lines 962-972), same shape with start/end/location. -/
def upsertTimed_ (env : SyncEnv) (existingId title : String) (startMs endMs : Int)
    (loc desc : String) : Except String String :=
  match (if existingId ≠ "" then env.calGetEvent existingId else none) with
  | some foundId => .ok foundId
  | none => env.createTimedEvent title startMs endMs loc desc

/-- `upsertCalendar_(ctx, bid)` (lines 915-929). -/
def upsertCalendar_ (env : SyncEnv) (st : SyncSettings) (bid : Bid) : Except String Bid :=
  let desc := buildCalendarDescription_ env bid
  match (match bid.dueDate with
         | .date ms => (upsertAllDay_ env bid.dueEventId ("📋 Bid Due: " ++ bid.bidName) ms desc).map some
         | _ => .ok none) with
  | .error e => .error e
  | .ok dueRes =>
    let bid1 := match dueRes with
                | some evId => { bid with dueEventId := evId }
                | none => bid
    match bid1.walkDateTime with
    | .date ms =>
      (match jsParseIntPrefix (jsOr st.walkDurationMin "60") with
       | none => .error "Invalid event time"
       | some dur =>
         match upsertTimed_ env bid1.walkEventId ("🚶 Walkthrough: " ++ bid1.bidName) ms
             (ms + dur * 60000) bid1.walkLocation desc with
         | .error e => .error e
         | .ok evId => .ok { bid1 with walkEventId := evId })
    | _ => .ok bid1

/-- The three configuration-gated Drive steps of the row body
(syncAll lines 114-116). -/
def driveStages (env : SyncEnv) (st : SyncSettings) (bid : Bid) : Except String Bid :=
  (if st.autoCreateDriveFolder = "TRUE" then ensureBidFolder_ env st bid else .ok bid).bind
    (fun b1 =>
      (if st.autoAttachRfp = "TRUE" then attachRfpIfRequested_ env st b1 else .ok b1).bind
        (fun b2 =>
          if st.autoCreateDocs = "TRUE" then ensureDocPlaceholders_ env st b2 else .ok b2))

/-- A notification emitted for one row. -/
inductive Notif where
  | newBid (bidId : String)
  | updated (bidId : String)
deriving DecidableEq, Repr

/-- The write-back record and notifications of one processed row. -/
structure RowOutcome where
  bid : Bid
  notifs : List Notif
deriving DecidableEq, Repr

/-- The notification decision and final `lastHash` assignment of the
row body (syncAll lines 127-144): the `if / else if` on
`alreadyNotified`. -/
def finishRow (st : SyncSettings) (newHash : String) (changed : Bool) (bid : Bid) : RowOutcome :=
  let alreadyNotified := bid.notified = "✔"
  if ¬alreadyNotified ∧ (bid.dueEventId ≠ "" ∨ bid.walkEventId ≠ "") then
    if st.notifyOnNewBid = "TRUE" then
      { bid := { bid with notified := "✔", lastHash := newHash }, notifs := [.newBid bid.bidId] }
    else { bid := { bid with lastHash := newHash }, notifs := [] }
  else if alreadyNotified ∧ changed then
    if st.notifyOnUpdates = "TRUE" then
      { bid := { bid with lastHash := newHash }, notifs := [.updated bid.bidId] }
    else { bid := { bid with lastHash := newHash }, notifs := [] }
  else { bid := { bid with lastHash := newHash }, notifs := [] }

/-- The `try`-block body of one `syncAll` row after validity checks
(lines 110-145): status rules, Drive steps, change detection, gated
calendar upsert, notification decision. -/
def processBid (env : SyncEnv) (st : SyncSettings) (bid0 : Bid) : Except String RowOutcome :=
  let bid1 := applyAutoStatus_ bid0
  (driveStages env st bid1).bind (fun bidD =>
    let newHash := computeHash_ bidD ⟨env.formatIso⟩
    let hadSync := bidD.dueEventId ≠ "" ∨ bidD.walkEventId ≠ "" ∨ bidD.lastHash ≠ ""
    let changed := newHash ≠ jsOr bidD.lastHash ""
    (if ¬hadSync ∨ changed then upsertCalendar_ env st bidD else .ok bidD).bind
      (fun bidC => .ok (finishRow st newHash (decide changed) bidC)))

/-- `readBidRow_(row)` (lines 1135-1159). -/
def readBidRow_ (row : List CellVal) : Bid :=
  { bidId := str_ (row.getD 0 .blank), bidName := str_ (row.getD 1 .blank),
    client := str_ (row.getD 2 .blank), postingUrl := str_ (row.getD 3 .blank),
    dueDate := row.getD 4 .blank, walkDateTime := row.getD 5 .blank,
    walkLocation := str_ (row.getD 6 .blank), ownerName := str_ (row.getD 7 .blank),
    ownerEmail := str_ (row.getD 8 .blank), status := str_ (row.getD 9 .blank),
    rfpSource := str_ (row.getD 10 .blank), rfpAttachYN := jsUpper (str_ (row.getD 11 .blank)),
    driveFolderUrl := str_ (row.getD 12 .blank), rfpInFolderUrl := str_ (row.getD 13 .blank),
    draftUrl := str_ (row.getD 14 .blank), finalUrl := str_ (row.getD 15 .blank),
    notes := str_ (row.getD 16 .blank), dueEventId := str_ (row.getD 17 .blank),
    walkEventId := str_ (row.getD 18 .blank), lastHash := str_ (row.getD 19 .blank),
    notified := str_ (row.getD 20 .blank) }

/-- `isRowBlank_(row)` (line 1202). -/
def isRowBlank_ (row : List CellVal) : Bool :=
  row.all (fun v => v = .blank ∨ v = .str "")

/-- One row of the `syncAll` loop: `none` when the row is skipped as
blank or invalid, otherwise the (`try`-guarded) row body. -/
def processRow (env : SyncEnv) (st : SyncSettings) (row : List CellVal) :
    Option (Except String RowOutcome) :=
  if isRowBlank_ row then none
  else if (readBidRow_ row).bidId = "" ∨ (readBidRow_ row).bidName = "" then none
  else some (processBid env st (readBidRow_ row))

/-- What one `syncAll` pass observably produces: the batched write-back
(1-based sheet row index with the mutated bid) and the notifications. -/
structure SyncResult where
  updates : List (Nat × Bid)
  notifs : List Notif
deriving DecidableEq, Repr

/-- `syncAll()` (lines 96-158) over the sheet values (header at index
0): per-row isolation is the `some (.error _)` case contributing
nothing; everything else accumulates in order. -/
def syncAll (env : SyncEnv) (st : SyncSettings) (values : List (List CellVal)) : SyncResult :=
  (values.drop 1).enum.foldl (fun acc p =>
    match processRow env st p.2 with
    | none => acc
    | some (.error _) => acc
    | some (.ok out) =>
      { updates := acc.updates ++ [(p.1 + 2, out.bid)], notifs := acc.notifs ++ out.notifs })
    ⟨[], []⟩

/-! ## Concrete scenario fixtures -/

/-- A sync environment whose external calls all succeed with
well-formed URLs and ids. -/
def scenarioEnv : SyncEnv :=
  ⟨fun _ _ => .ok "https://drive.google.com/drive/folders/AAAAAAAAAAAAAAAA",
   fun _ _ => .ok "https://drive.google.com/file/d/CCCCCCCCCCCCCCCC/view",
   fun _ _ _ => .ok "https://drive.google.com/file/d/DDDDDDDDDDDDDDDD/view",
   fun _ _ _ => .ok "https://docs.google.com/document/d/EEEEEEEEEEEEEEEE/edit",
   fun _ _ => .ok "https://docs.google.com/document/d/BBBBBBBBBBBBBBBB/edit",
   fun _ => none, fun _ _ _ => .ok "ev-due-1", fun _ _ _ _ _ => .ok "ev-walk-1",
   fun _ => ""⟩

/-- The default settings (every `readSettings_` default). -/
def scenarioSettings : SyncSettings := {}

/-- Scenario row 1: a valid minimal bid. -/
def rowAlpha : List CellVal := [.str "BID-2024-001", .str "Alpha"]

/-- Scenario row 2: a valid bid whose stored Drive-folder URL cannot be
parsed by `extractDriveId_`, so `ensureDocPlaceholders_` throws for it. -/
def rowBeta : List CellVal :=
  [.str "BID-2024-002", .str "Beta", .blank, .blank, .blank, .blank,
   .blank, .blank, .blank, .blank, .blank, .blank, .str "not a drive url"]

/-- Scenario row 3: another valid minimal bid. -/
def rowGamma : List CellVal := [.str "BID-2024-003", .str "Gamma"]

/-- The scenario sheet: header plus the three rows. -/
def scenarioValues : List (List CellVal) :=
  [[.str "Bid ID"], rowAlpha, rowBeta, rowGamma]

/-- A minimal valid bid for per-row witnesses. -/
def witnessBid : Bid := { bidId := "BID-2024-009", bidName := "Witness" }

/-- The row outcome `processBid` produces on the witness fixtures. -/
def witnessOutcome : RowOutcome :=
  match processBid scenarioEnv scenarioSettings witnessBid with
  | .ok o => o
  | .error _ => ⟨{}, []⟩

/-- No case-insensitive occurrence of either bid-detail keyword — the
formal reading of "the input contains no bid-detail links" (both link
regexes require one of these words inside an `href` attribute). -/
def kwFree (cs : List Char) : Prop :=
  containsCI ("bidDetail".toList) cs = false ∧ containsCI ("publicBidOpen".toList) cs = false

/-- A malformed non-HTML input with no bid-detail links. -/
def malformedHtml : String := "<tr><td>@#!garbage <a href=oops >>> <//td>"

instance (cs : List Char) : Decidable (kwFree cs) :=
  inferInstanceAs (Decidable (_ = false ∧ _ = false))

/-- Discovery-poll scenario: a listing page whose bid-detail link
carries a trailing space inside the `href` attribute. -/
def spaceHtml : String := "<tr><td>B1</td><td>T1</td><a href=\"/bidDetail?x=1 \">z</a></tr>"

/-- A poll environment always answering with that page. -/
def spacePollEnv : PollEnv :=
  ⟨fun _ => .ok (200, spaceHtml), fun _ => none, fun n => "CB-" ++ toString n⟩

/-- Poll settings: enabled, one keyword, staging mode. -/
def stagingPollSettings : PollSettings :=
  { enabled := "TRUE", keywordsRaw := "cleaning", autoImport := "FALSE" }

/-- A Bids sheet holding only its header row. -/
def headerOnlyBids : List (List CellVal) := [[.str "Bid ID"]]

/-- A well-formed listing page (no stray whitespace in the href). -/
def cleanHtml : String := "<tr><td>B1</td><td>T1</td><a href=\"/bidDetail?x=1\">z</a></tr>"

/-- A poll environment always answering with the clean page. -/
def cleanPollEnv : PollEnv :=
  ⟨fun _ => .ok (200, cleanHtml), fun _ => none, fun n => "CB-" ++ toString n⟩

/-- The single candidate the clean page parses to. -/
def cbClean : CommbuysBid :=
  ⟨"B1", "T1", "", "", "https://www.commbuys.com/bidDetail?x=1", ""⟩

/-- The loop invariant of a poll run over an initial Bids sheet
`bids0`: the sheet only grows, and every URL in the in-memory staging
set is recoverable from one of the two stored sheets. -/
def PollInv (bids0 : List (List CellVal)) (ls : PollLoopState) : Prop :=
  (∃ d, ls.bidsValues = bids0 ++ d) ∧
  (∀ u ∈ ls.stagingUrls, u ∈ getStagingUrls_ ls.staging ∨ u ∈ getExistingBidUrls_ ls.bidsValues)

/-! ## Helper lemmas — status rules engine -/

/-- Locked branch of `applyAutoStatus_`: an early `return`. -/
theorem applyAutoStatus_of_locked {b : Bid}
    (h : jsTrim b.status ∈ LOCKED_STATUSES) :
    applyAutoStatus_ b = b := by
  simp only [applyAutoStatus_]
  rw [if_pos h]

/-- Final-document branch of `applyAutoStatus_`. -/
theorem applyAutoStatus_of_final {b : Bid}
    (hL : jsTrim b.status ∉ LOCKED_STATUSES)
    (hF : b.finalUrl ≠ "") :
    applyAutoStatus_ b = { b with status := "Submitted" } := by
  simp only [applyAutoStatus_]
  rw [if_neg hL, if_pos hF]

/-- Draft-document branch of `applyAutoStatus_`. -/
theorem applyAutoStatus_of_draft {b : Bid}
    (hL : jsTrim b.status ∉ LOCKED_STATUSES)
    (hF : b.finalUrl = "") (hD : b.draftUrl ≠ "")
    (hS : jsTrim b.status = "Open" ∨ jsTrim b.status = "Walkthrough Scheduled") :
    applyAutoStatus_ b = { b with status := "In Progress" } := by
  simp only [applyAutoStatus_]
  rw [if_neg hL, if_neg (fun hk => hk hF), if_pos ⟨hD, hS⟩]

/-- Walkthrough branch of `applyAutoStatus_`. -/
theorem applyAutoStatus_of_walk {b : Bid}
    (hL : jsTrim b.status ∉ LOCKED_STATUSES)
    (hF : b.finalUrl = "")
    (hD : ¬(b.draftUrl ≠ "" ∧ (jsTrim b.status = "Open" ∨ jsTrim b.status = "Walkthrough Scheduled")))
    (hW : isValidDate_ b.walkDateTime = true) (hS : jsTrim b.status = "Open") :
    applyAutoStatus_ b = { b with status := "Walkthrough Scheduled" } := by
  simp only [applyAutoStatus_]
  rw [if_neg hL, if_neg (fun hk => hk hF), if_neg hD, if_pos ⟨hW, hS⟩]

/-- No-transition case of `applyAutoStatus_`. -/
theorem applyAutoStatus_of_none {b : Bid}
    (hL : jsTrim b.status ∉ LOCKED_STATUSES)
    (hF : b.finalUrl = "")
    (hD : ¬(b.draftUrl ≠ "" ∧ (jsTrim b.status = "Open" ∨ jsTrim b.status = "Walkthrough Scheduled")))
    (hW : ¬(isValidDate_ b.walkDateTime = true ∧ jsTrim b.status = "Open")) :
    applyAutoStatus_ b = b := by
  simp only [applyAutoStatus_]
  rw [if_neg hL, if_neg (fun hk => hk hF), if_neg hD, if_neg hW]

/-! ## Theorems for the claims -/

/-- C6: `applyAutoStatus_` is idempotent — a second application yields
the same status as the first. -/
theorem applyAutoStatus_idempotent (b : Bid) :
    (applyAutoStatus_ (applyAutoStatus_ b)).status = (applyAutoStatus_ b).status := by
  by_cases hL : jsTrim b.status ∈ LOCKED_STATUSES
  · rw [applyAutoStatus_of_locked hL, applyAutoStatus_of_locked hL]
  · by_cases hF : b.finalUrl = ""
    · by_cases hD : b.draftUrl ≠ "" ∧ (jsTrim b.status = "Open" ∨ jsTrim b.status = "Walkthrough Scheduled")
      · rw [applyAutoStatus_of_draft hL hF hD.1 hD.2]
        have e1 : jsTrim ({ b with status := "In Progress" } : Bid).status = "In Progress" := rfl
        rw [@applyAutoStatus_of_none { b with status := "In Progress" }
          (by rw [e1]; decide) hF
          (by rw [e1]; intro h; rcases h.2 with h2 | h2 <;> exact absurd h2 (by decide))
          (by rw [e1]; intro h; exact absurd h.2 (by decide))]
      · by_cases hW : isValidDate_ b.walkDateTime = true ∧ jsTrim b.status = "Open"
        · have hDraftEmpty : b.draftUrl = "" := by
            by_contra hne
            exact hD ⟨hne, Or.inl hW.2⟩
          rw [applyAutoStatus_of_walk hL hF hD hW.1 hW.2]
          have e2 : jsTrim ({ b with status := "Walkthrough Scheduled" } : Bid).status
              = "Walkthrough Scheduled" := rfl
          rw [@applyAutoStatus_of_none { b with status := "Walkthrough Scheduled" }
            (by rw [e2]; decide) hF
            (by intro h; exact h.1 hDraftEmpty)
            (by rw [e2]; intro h; exact absurd h.2 (by decide))]
        · rw [applyAutoStatus_of_none hL hF hD hW, applyAutoStatus_of_none hL hF hD hW]
    · have hF' : b.finalUrl ≠ "" := hF
      rw [applyAutoStatus_of_final hL hF']
      have e3 : jsTrim ({ b with status := "Submitted" } : Bid).status = "Submitted" := rfl
      rw [@applyAutoStatus_of_final { b with status := "Submitted" }
        (by rw [e3]; decide) hF']

/-- C1 counterexample: `"Archived"` — the newer schema's locked value —
is not in the Apps Script `LOCKED_STATUSES`, and an archived bid holding
a final document is auto-transitioned by `applyAutoStatus_`. -/
theorem applyAutoStatus_archived_counterexample :
    ({ status := "Archived", finalUrl := "x" } : Bid).status = "Archived"
    ∧ (applyAutoStatus_ { status := "Archived", finalUrl := "x" }).status ≠ "Archived" := by
  decide

/-- C1 (amended): for every bid whose status is one of the legacy locked
values `Won`, `Lost`, `No Bid`, `On Hold` — the exact contents of
`LOCKED_STATUSES` — `applyAutoStatus_` returns the bid with its status
unchanged; `"Archived"` is not locked for this engine. -/
theorem applyAutoStatus_locked_unchanged (b : Bid) (h : b.status ∈ LOCKED_STATUSES) :
    (applyAutoStatus_ b).status = b.status := by
  have hc : jsTrim b.status ∈ LOCKED_STATUSES := by
    simp only [LOCKED_STATUSES, List.mem_cons, List.not_mem_nil, or_false] at h
    rcases h with h | h | h | h <;> rw [h] <;> decide
  rw [applyAutoStatus_of_locked hc]

/-- C1 witness: a concrete `On Hold` bid with a draft document is left
unchanged. -/
theorem applyAutoStatus_locked_unchanged_witness :
    (applyAutoStatus_ { status := "On Hold", draftUrl := "d" }).status
      = ({ status := "On Hold", draftUrl := "d" } : Bid).status :=
  applyAutoStatus_locked_unchanged { status := "On Hold", draftUrl := "d" } (by decide)

/-- C2 counterexample: with existing ids `BID-2024-001` and
`BID-2024-007` and current year 2025, `addBidFromApi_` generates
`BID-2025-008`, not `BID-2025-001` — its regex scan is not restricted to
the current year, so the sequence does not restart. -/
theorem addBidFromApi_newYear_counterexample :
    addBidFromApi_nextId ["BID-2024-001", "BID-2024-007"] 2025 = "BID-2025-008"
    ∧ addBidFromApi_nextId ["BID-2024-001", "BID-2024-007"] 2025 ≠ "BID-2025-001" := by
  decide

/-- Folding the `buildNextBidId` accumulator over ids none of which carry
the current year's prefix leaves the accumulator unchanged. -/
theorem buildNextBidId_foldl_const (pre : String) (ids : List String) (acc : Int)
    (h : ∀ id ∈ ids, ¬ jsStartsWith id pre) :
    ids.foldl (fun acc id =>
      if jsStartsWith id pre then
        match jsNumberInt (jsDropChars id pre.length) with
        | some n => max acc n
        | none => acc
      else acc) acc = acc := by
  induction ids generalizing acc with
  | nil => rfl
  | cons a t ih =>
    have ha : jsStartsWith a pre = false := by
      have := h a (List.mem_cons_self a t)
      simpa using this
    simp only [List.foldl_cons, ha, Bool.false_eq_true, if_false]
    exact ih acc (fun id hid => h id (List.mem_cons_of_mem a hid))

/-- C2 (amended): the Next.js `buildNextBidId` behaves exactly as the
claim states — per-year maximum plus one, restarting at `001` in a year
with no prior ids of its own; the Apps Script `addBidFromApi_` takes the
maximum matched sequence over ids of all years, so it agrees within a
year but continues (not restarts) across a year boundary. -/
theorem bidId_generation_amended :
    SheetsLib.buildNextBidId ["BID-2024-001", "BID-2024-007"] 2024 = "BID-2024-008"
    ∧ SheetsLib.buildNextBidId ["BID-2024-001", "BID-2024-007"] 2025 = "BID-2025-001"
    ∧ (∀ (ids : List String) (year : Nat),
        (∀ id ∈ ids, ¬ jsStartsWith id ("BID-" ++ toString year ++ "-")) →
        SheetsLib.buildNextBidId ids year = "BID-" ++ toString year ++ "-" ++ "001")
    ∧ addBidFromApi_nextId ["BID-2024-001", "BID-2024-007"] 2024 = "BID-2024-008"
    ∧ addBidFromApi_nextId ["BID-2024-001", "BID-2024-007"] 2025 = "BID-2025-008" := by
  refine ⟨by decide, by decide, ?_, by decide, by decide⟩
  intro ids year h
  simp only [SheetsLib.buildNextBidId]
  rw [buildNextBidId_foldl_const _ _ _ h]
  rfl

/-- C2 witness: in a year with no matching prior ids the generated id
ends in `001`. -/
theorem bidId_generation_amended_witness :
    SheetsLib.buildNextBidId ["OLD-77"] 2030 = "BID-" ++ toString 2030 ++ "-" ++ "001" :=
  bidId_generation_amended.2.2.1 ["OLD-77"] 2030 (by decide)

/-- C3 counterexample: the server-side `normalizeStatus`
(src/lib/sheets.js) has no legacy mapping table — it sends the legacy
raw value `"No Bid"` to the fallback `"New"`, not to `"Lost"`. -/
theorem sheetsNormalizeStatus_noBid_counterexample :
    SheetsLib.normalizeStatus "No Bid" = "New"
    ∧ SheetsLib.normalizeStatus "No Bid" ≠ "Lost" := by
  decide

/-- C3 (amended): the client-side `normalizeStatus` maps `"No Bid"` to
`"Lost"` and sends the empty string and every unrecognized raw value to
`"New"`; the server-side `normalizeStatus` also defaults empty and
unrecognized values to `"New"` but maps `"No Bid"` to `"New"` since it
has no legacy table. -/
theorem normalizeStatus_legacy_amended :
    ClientLib.normalizeStatus "No Bid" = "Lost"
    ∧ ClientLib.normalizeStatus "" = "New"
    ∧ (∀ s : String, jsTrim s ∉ ClientLib.legacyKeys → jsTrim s ∉ ClientLib.STATUS_OPTIONS →
        ClientLib.normalizeStatus s = "New")
    ∧ SheetsLib.normalizeStatus "" = "New"
    ∧ (∀ s : String, jsTrim s ∉ SheetsLib.allowedStatuses → SheetsLib.normalizeStatus s = "New") := by
  refine ⟨by decide, by decide, ?_, by decide, ?_⟩
  · intro s h1 h2
    simp only [ClientLib.legacyKeys, List.mem_cons, List.not_mem_nil, or_false, not_or] at h1
    obtain ⟨k1, k2, k3, k4, k5⟩ := h1
    have hmap : ClientLib.LEGACY_STATUS_MAP (jsTrim s) = none := by
      unfold ClientLib.LEGACY_STATUS_MAP
      simp [k1, k2, k3, k4, k5]
    simp only [ClientLib.normalizeStatus]
    rw [hmap]
    by_cases he : jsTrim s = ""
    · simp [he]
    · simp only [he, if_false]
      rw [if_neg h2]
  · intro s h
    simp only [SheetsLib.normalizeStatus]
    by_cases he : jsTrim s = ""
    · simp [he]
    · rw [if_neg he, if_neg h]

/-- C3 witness: a concrete unrecognized raw status decodes to `"New"` in
both decoders. -/
theorem normalizeStatus_legacy_amended_witness :
    ClientLib.normalizeStatus "Pending" = "New" :=
  normalizeStatus_legacy_amended.2.2.1 "Pending" (by decide) (by decide)

set_option maxRecDepth 100000 in
/-- C4: the fingerprint depends on exactly the sixteen serialized
identity fields — bids equal on them hash equally for every timezone
formatter; the four self-referential fields (`lastHash`, `dueEventId`,
`walkEventId`, `notified`) never influence the hash; and changing the
mutable field `notes` changes the hash at a concrete pair of bids. -/
theorem computeHash_fingerprint_properties :
    (∀ (ctx : HashCtx) (b1 b2 : Bid),
      b1.bidId = b2.bidId → b1.bidName = b2.bidName → b1.client = b2.client →
      b1.postingUrl = b2.postingUrl → b1.dueDate = b2.dueDate →
      b1.walkDateTime = b2.walkDateTime → b1.walkLocation = b2.walkLocation →
      b1.ownerName = b2.ownerName → b1.ownerEmail = b2.ownerEmail →
      b1.status = b2.status → b1.driveFolderUrl = b2.driveFolderUrl →
      b1.rfpSource = b2.rfpSource → b1.rfpInFolderUrl = b2.rfpInFolderUrl →
      b1.draftUrl = b2.draftUrl → b1.finalUrl = b2.finalUrl → b1.notes = b2.notes →
      computeHash_ b1 ctx = computeHash_ b2 ctx)
    ∧ (∀ (ctx : HashCtx) (b : Bid) (lh de we nf : String),
      computeHash_ { b with lastHash := lh, dueEventId := de, walkEventId := we, notified := nf } ctx
        = computeHash_ b ctx)
    ∧ computeHash_ { notes := "scope v1" } ⟨fun _ => ""⟩
        ≠ computeHash_ { notes := "scope v2" } ⟨fun _ => ""⟩ := by
  refine ⟨?_, ?_, ?_⟩
  · intro ctx b1 b2 h1 h2 h3 h4 h5 h6 h7 h8 h9 h10 h11 h12 h13 h14 h15 h16
    unfold computeHash_ hashSerialization
    rw [h1, h2, h3, h4, h5, h6, h7, h8, h9, h10, h11, h12, h13, h14, h15, h16]
  · intro ctx b lh de we nf
    rfl
  · decide

/-- C4 witness: a concrete bid is hash-equal to its copy with a
different stored `lastHash`. -/
theorem computeHash_fingerprint_properties_witness :
    computeHash_ { notes := "n", lastHash := "old" } ⟨fun _ => ""⟩
      = computeHash_ { notes := "n", lastHash := "new" } ⟨fun _ => ""⟩ :=
  computeHash_fingerprint_properties.1 ⟨fun _ => ""⟩
    { notes := "n", lastHash := "old" } { notes := "n", lastHash := "new" }
    rfl rfl rfl rfl rfl rfl rfl rfl rfl rfl rfl rfl rfl rfl rfl rfl


/-! ## Helper lemmas — sync orchestrator -/

/-- The `syncAll` accumulator fold, characterized row-by-row: each row
contributes its own write-back entry and notifications exactly when its
own processing succeeds, independent of every other row. -/
theorem syncAll_go_spec (env : SyncEnv) (st : SyncSettings)
    (l : List (Nat × List CellVal)) (acc : SyncResult) :
    l.foldl (fun acc p =>
      match processRow env st p.2 with
      | none => acc
      | some (.error _) => acc
      | some (.ok out) =>
        { updates := acc.updates ++ [(p.1 + 2, out.bid)], notifs := acc.notifs ++ out.notifs }) acc
    = ⟨acc.updates ++ l.filterMap (fun p =>
        match processRow env st p.2 with
        | some (.ok out) => some (p.1 + 2, out.bid)
        | _ => none),
       acc.notifs ++ (l.map (fun p =>
        match processRow env st p.2 with
        | some (.ok out) => out.notifs
        | _ => [])).flatten⟩ := by
  induction l generalizing acc with
  | nil => simp
  | cons a t ih =>
    simp only [List.foldl_cons, List.filterMap_cons, List.map_cons, List.flatten_cons]
    cases hp : processRow env st a.2 with
    | none => simp only [hp]; rw [ih]; simp
    | some r =>
      cases r with
      | error e => simp only [hp]; rw [ih]; simp
      | ok out => simp only [hp]; rw [ih]; simp

/-- The three notification shapes a row can produce. -/
theorem finishRow_notifs_cases (st : SyncSettings) (h : String) (c : Bool) (b : Bid) :
    (finishRow st h c b).notifs = []
    ∨ (finishRow st h c b).notifs = [.newBid b.bidId]
    ∨ (finishRow st h c b).notifs = [.updated b.bidId] := by
  simp only [finishRow]
  split_ifs <;> simp

/-- `finishRow` only touches `notified` and `lastHash`. -/
theorem finishRow_bid_finalUrl (st : SyncSettings) (h : String) (c : Bool) (b : Bid) :
    (finishRow st h c b).bid.finalUrl = b.finalUrl := by
  simp only [finishRow]
  split_ifs <;> rfl

/-- Inversion of a successful `processBid`: the Drive stages succeeded,
the calendar step either ran successfully or was skipped, and the
outcome is a `finishRow` of the resulting bid. -/
theorem processBid_ok_inv (env : SyncEnv) (st : SyncSettings) (bid : Bid) (out : RowOutcome)
    (h : processBid env st bid = .ok out) :
    ∃ bidD bidC changed,
      driveStages env st (applyAutoStatus_ bid) = .ok bidD ∧
      (upsertCalendar_ env st bidD = .ok bidC ∨ bidC = bidD) ∧
      out = finishRow st (computeHash_ bidD ⟨env.formatIso⟩) changed bidC := by
  simp only [processBid] at h
  cases hd : driveStages env st (applyAutoStatus_ bid) with
  | error e => rw [hd] at h; simp [Except.bind] at h
  | ok bidD =>
    rw [hd] at h
    simp only [Except.bind] at h
    by_cases hc : (¬(bidD.dueEventId ≠ "" ∨ bidD.walkEventId ≠ "" ∨ bidD.lastHash ≠ "") ∨
        computeHash_ bidD ⟨env.formatIso⟩ ≠ jsOr bidD.lastHash "")
    · rw [if_pos hc] at h
      cases hu : upsertCalendar_ env st bidD with
      | error e => rw [hu] at h; simp [Except.bind] at h
      | ok bidC =>
        rw [hu] at h
        simp only [Except.bind, Except.ok.injEq] at h
        exact ⟨bidD, bidC, _, rfl, Or.inl hu, h.symm⟩
    · rw [if_neg hc] at h
      simp only [Except.bind, Except.ok.injEq] at h
      exact ⟨bidD, bidD, _, rfl, Or.inr rfl, h.symm⟩

/-- A non-blank valid row's entry in the loop is its `processBid`. -/
theorem processRow_ok_inv (env : SyncEnv) (st : SyncSettings) (row : List CellVal)
    (out : RowOutcome) (h : processRow env st row = some (.ok out)) :
    processBid env st (readBidRow_ row) = .ok out := by
  unfold processRow at h
  split at h
  · cases h
  · split at h
    · cases h
    · injection h

/-- `ensureBidFolder_` success leaves a non-empty folder URL (given the
folder service never returns an empty one) and does not touch the
document fields. -/
theorem ensureBidFolder_ok_inv {env : SyncEnv} {st : SyncSettings} {bid bid' : Bid}
    (henv : ∀ root name url, env.createFolderIn root name = .ok url → url ≠ "")
    (h : ensureBidFolder_ env st bid = .ok bid') :
    bid'.driveFolderUrl ≠ "" ∧ bid'.finalUrl = bid.finalUrl ∧ bid'.draftUrl = bid.draftUrl := by
  unfold ensureBidFolder_ at h
  by_cases hd : bid.driveFolderUrl ≠ ""
  · rw [if_pos hd] at h
    cases h
    exact ⟨hd, rfl, rfl⟩
  · rw [if_neg hd] at h
    cases hc : env.createFolderIn st.driveRootFolderId (jsTake (bid.bidId ++ " - " ++ bid.bidName) 180) with
    | error e => rw [hc] at h; cases h
    | ok url => rw [hc] at h; cases h; exact ⟨henv _ _ _ hc, rfl, rfl⟩

/-- `attachRfpIfRequested_` success does not touch the folder URL or
the document fields. -/
theorem attachRfp_ok_preserves {env : SyncEnv} {st : SyncSettings} {bid bid' : Bid}
    (h : attachRfpIfRequested_ env st bid = .ok bid') :
    bid'.driveFolderUrl = bid.driveFolderUrl ∧ bid'.finalUrl = bid.finalUrl ∧
      bid'.draftUrl = bid.draftUrl := by
  simp only [attachRfpIfRequested_] at h
  split at h
  · cases h; exact ⟨rfl, rfl, rfl⟩
  · split at h
    · cases h
    · split at h
      · cases h
      · split at h
        · cases h
        · cases h; exact ⟨rfl, rfl, rfl⟩

/-- A created placeholder document's URL is non-empty when both
document services return non-empty URLs. -/
theorem createFromTemplateOrBlank_ok_ne {env : SyncEnv} {folderId tid name url : String}
    (hT : ∀ t n f u, env.copyTemplate t n f = .ok u → u ≠ "")
    (hB : ∀ f n u, env.createBlankDocIn f n = .ok u → u ≠ "")
    (h : createFromTemplateOrBlank_ env folderId tid name = .ok url) : url ≠ "" := by
  unfold createFromTemplateOrBlank_ at h
  split at h
  · exact hT _ _ _ _ h
  · exact hB _ _ _ h

/-- `ensureDocPlaceholders_` success on a bid with a folder yields a
non-empty `finalUrl`. -/
theorem ensureDocPlaceholders_ok_final {env : SyncEnv} {st : SyncSettings} {bid bid' : Bid}
    (hT : ∀ t n f u, env.copyTemplate t n f = .ok u → u ≠ "")
    (hB : ∀ f n u, env.createBlankDocIn f n = .ok u → u ≠ "")
    (hd : bid.driveFolderUrl ≠ "")
    (h : ensureDocPlaceholders_ env st bid = .ok bid') :
    bid'.finalUrl ≠ "" := by
  unfold ensureDocPlaceholders_ at h
  rw [if_neg (by simpa using hd)] at h
  split at h
  · cases h
  · split at h
    · cases h
    · rename_i heqFin
      split at h
      · cases h
      · rename_i fin heqF
        cases h
        by_cases hf : bid.finalUrl = ""
        · rw [if_pos hf] at heqF
          exact createFromTemplateOrBlank_ok_ne hT hB heqF
        · rw [if_neg hf] at heqF
          cases heqF
          exact hf

/-- The calendar upsert touches only the two event-id fields. -/
theorem upsertCalendar_ok_preserves_finalUrl {env : SyncEnv} {st : SyncSettings} {bid bid' : Bid}
    (h : upsertCalendar_ env st bid = .ok bid') : bid'.finalUrl = bid.finalUrl := by
  simp only [upsertCalendar_] at h
  split at h
  · cases h
  · rename_i dueRes heq
    split at h
    · rename_i ms
      split at h
      · cases h
      · split at h
        · cases h
        · cases h
          cases dueRes <;> rfl
    · cases h
      cases dueRes <;> rfl

/-- `driveStages` success under the two default creation flags forces a
non-empty `finalUrl`. -/
theorem driveStages_ok_final {env : SyncEnv} {st : SyncSettings} {bid bidD : Bid}
    (hFol : st.autoCreateDriveFolder = "TRUE") (hDocs : st.autoCreateDocs = "TRUE")
    (hEnvF : ∀ root name url, env.createFolderIn root name = .ok url → url ≠ "")
    (hEnvT : ∀ t n f u, env.copyTemplate t n f = .ok u → u ≠ "")
    (hEnvB : ∀ f n u, env.createBlankDocIn f n = .ok u → u ≠ "")
    (h : driveStages env st bid = .ok bidD) : bidD.finalUrl ≠ "" := by
  unfold driveStages at h
  simp only [hFol, hDocs, eq_self_iff_true, if_true] at h
  cases h1 : ensureBidFolder_ env st bid with
  | error e => rw [h1] at h; simp [Except.bind] at h
  | ok b1 =>
    rw [h1] at h
    simp only [Except.bind] at h
    obtain ⟨hb1, -, -⟩ := ensureBidFolder_ok_inv hEnvF h1
    by_cases hA : st.autoAttachRfp = "TRUE"
    · rw [if_pos hA] at h
      cases h2 : attachRfpIfRequested_ env st b1 with
      | error e => rw [h2] at h; simp [Except.bind] at h
      | ok b2 =>
        rw [h2] at h
        simp only [Except.bind] at h
        obtain ⟨hd2, -, -⟩ := attachRfp_ok_preserves h2
        exact ensureDocPlaceholders_ok_final hEnvT hEnvB (by rw [hd2]; exact hb1) h
    · rw [if_neg hA] at h
      exact ensureDocPlaceholders_ok_final hEnvT hEnvB hb1 h

/-! ## Theorems for the orchestrator claims -/

set_option maxRecDepth 1000000 in
/-- C5: one `syncAll` pass is row-isolated — the write-back batch is
exactly the per-row fold where each row contributes if and only if its
own processing succeeds (a thrown row contributes nothing and blocks
nothing); concretely, with three valid rows of which the second throws
inside `ensureDocPlaceholders_` (unparseable stored folder URL), rows 1
and 3 appear in the batch (sheet rows 2 and 4) and the failing row does
not.  Totality of `processRow` in Lean is the no-throw guarantee: every
exception is a caught `Except.error` value. -/
theorem syncAll_row_isolation :
    (∀ (env : SyncEnv) (st : SyncSettings) (values : List (List CellVal)),
      (syncAll env st values).updates = (values.drop 1).enum.filterMap (fun p =>
        match processRow env st p.2 with
        | some (.ok out) => some (p.1 + 2, out.bid)
        | _ => none))
    ∧ (syncAll scenarioEnv scenarioSettings scenarioValues).updates.map Prod.fst = [2, 4]
    ∧ (∃ e, processRow scenarioEnv scenarioSettings rowBeta = some (.error e)) := by
  refine ⟨?_, by decide, ⟨_, by rfl⟩⟩
  intro env st values
  unfold syncAll
  rw [syncAll_go_spec]
  simp

/-- C8: one row never triggers both notification branches in a pass —
for every environment, settings and bid, a successful row body emits at
most one of the new-bid and update notifications (the source guards
them with mutually exclusive `alreadyNotified` conditions in an
`if / else if`). -/
theorem notification_branches_exclusive :
    ∀ (env : SyncEnv) (st : SyncSettings) (bid : Bid) (out : RowOutcome),
      processBid env st bid = .ok out →
      ¬((∃ i, Notif.newBid i ∈ out.notifs) ∧ (∃ j, Notif.updated j ∈ out.notifs)) := by
  rintro env st bid out h ⟨⟨i, hi⟩, ⟨j, hj⟩⟩
  obtain ⟨bidD, bidC, ch, -, -, hout⟩ := processBid_ok_inv env st bid out h
  subst hout
  rcases finishRow_notifs_cases st (computeHash_ bidD ⟨env.formatIso⟩) ch bidC with hn | hn | hn <;>
    rw [hn] at hi hj <;> simp at hi hj

set_option maxRecDepth 1000000 in
/-- C8 witness: the concrete witness row emits at most one branch. -/
theorem notification_branches_exclusive_witness :
    ¬((∃ i, Notif.newBid i ∈ witnessOutcome.notifs) ∧
      (∃ j, Notif.updated j ∈ witnessOutcome.notifs)) :=
  notification_branches_exclusive scenarioEnv scenarioSettings witnessBid witnessOutcome rfl

/-- C10: with `AUTO_CREATE_DRIVE_FOLDER` and `AUTO_CREATE_DOCS` at
their `TRUE` defaults and the document services returning non-empty
URLs, every row a pass writes back carries a non-empty `finalUrl`; and
since `applyAutoStatus_` runs at the start of a pass, any such bid
whose status is not locked is set to `Submitted` by the next pass —
the intermediate statuses are transient under the defaults. -/
theorem default_docs_force_submitted :
    ∀ (env : SyncEnv) (st : SyncSettings),
      st.autoCreateDriveFolder = "TRUE" → st.autoCreateDocs = "TRUE" →
      (∀ root name url, env.createFolderIn root name = .ok url → url ≠ "") →
      (∀ t n f u, env.copyTemplate t n f = .ok u → u ≠ "") →
      (∀ f n u, env.createBlankDocIn f n = .ok u → u ≠ "") →
      (∀ (values : List (List CellVal)) (entry : Nat × Bid),
          entry ∈ (syncAll env st values).updates → entry.2.finalUrl ≠ "")
      ∧ (∀ b : Bid, b.finalUrl ≠ "" → jsTrim b.status ∉ LOCKED_STATUSES →
          (applyAutoStatus_ b).status = "Submitted") := by
  intro env st hFol hDocs hEnvF hEnvT hEnvB
  constructor
  · intro values entry hmem
    unfold syncAll at hmem
    rw [syncAll_go_spec] at hmem
    simp only [List.nil_append] at hmem
    rw [List.mem_filterMap] at hmem
    obtain ⟨p, -, hp⟩ := hmem
    cases hr : processRow env st p.2 with
    | none => rw [hr] at hp; cases hp
    | some r =>
      cases r with
      | error e => rw [hr] at hp; cases hp
      | ok out =>
        rw [hr] at hp
        simp only [Option.some.injEq] at hp
        subst hp
        have hpb := processRow_ok_inv env st p.2 out hr
        obtain ⟨bidD, bidC, ch, hds, hcal, hout⟩ :=
          processBid_ok_inv env st (readBidRow_ p.2) out hpb
        have hD := driveStages_ok_final hFol hDocs hEnvF hEnvT hEnvB hds
        have hC : bidC.finalUrl = bidD.finalUrl := by
          rcases hcal with hcal | hcal
          · exact upsertCalendar_ok_preserves_finalUrl hcal
          · rw [hcal]
        subst hout
        show (finishRow st (computeHash_ bidD ⟨env.formatIso⟩) ch bidC).bid.finalUrl ≠ ""
        rw [finishRow_bid_finalUrl, hC]
        exact hD
  · intro b hF hL
    rw [applyAutoStatus_of_final hL hF]

/-- C10 witness: a concrete unlocked bid with a final document is set
to `Submitted` by the next pass's rules step. -/
theorem default_docs_force_submitted_witness :
    (applyAutoStatus_ { witnessBid with finalUrl := "https://x/d" }).status = "Submitted" :=
  (default_docs_force_submitted scenarioEnv scenarioSettings rfl rfl
    (fun root name url h => by cases h; decide)
    (fun t n f u h => by cases h; decide)
    (fun f n u h => by cases h; decide)).2
    { witnessBid with finalUrl := "https://x/d" } (by decide) (by decide)


/-! ## Helper lemmas — parser scanners -/

/-- A successful case-insensitive prefix match splits its input. -/
theorem matchCI_eq_some {pat : List Char} :
    ∀ {cs r : List Char}, matchCI pat cs = some r → ∃ pre, cs = pre ++ r := by
  induction pat with
  | nil =>
    intro cs r h
    simp only [matchCI, Option.some.injEq] at h
    exact ⟨[], by rw [h]; rfl⟩
  | cons p ps ih =>
    intro cs r h
    cases cs with
    | nil => simp [matchCI] at h
    | cons c cs' =>
      simp only [matchCI] at h
      split at h
      · obtain ⟨pre, hp⟩ := ih h
        exact ⟨c :: pre, by rw [hp]; rfl⟩
      · cases h

/-- A match extends along an appended tail. -/
theorem matchCI_append {pat : List Char} :
    ∀ {s r : List Char} (t : List Char), matchCI pat s = some r →
      matchCI pat (s ++ t) = some (r ++ t) := by
  induction pat with
  | nil =>
    intro s r t h
    simp only [matchCI, Option.some.injEq] at h ⊢
    rw [h]
  | cons p ps ih =>
    intro s r t h
    cases s with
    | nil => simp [matchCI] at h
    | cons c cs' =>
      simp only [matchCI] at h ⊢
      split at h
      · rename_i hc
        rw [if_pos hc]
        exact ih t h
      · cases h

/-- A suffix match witnesses `containsCI`. -/
theorem containsCI_of_suffix_match {pat : List Char} :
    ∀ (a b : List Char), (matchCI pat b).isSome → containsCI pat (a ++ b) = true := by
  intro a
  induction a with
  | nil =>
    intro b h
    cases b with
    | nil => simpa [containsCI] using h
    | cons c cs => simp only [List.nil_append, containsCI, Bool.or_eq_true]; exact Or.inl h
  | cons x a' ih =>
    intro b h
    simp only [List.cons_append, containsCI, Bool.or_eq_true]
    exact Or.inr (ih b h)

/-- `containsCI` means some suffix matches. -/
theorem containsCI_iff_exists {pat : List Char} :
    ∀ {l : List Char}, containsCI pat l = true → ∃ a b, l = a ++ b ∧ (matchCI pat b).isSome := by
  intro l
  induction l with
  | nil =>
    intro h
    exact ⟨[], [], rfl, by simpa [containsCI] using h⟩
  | cons c cs ih =>
    intro h
    simp only [containsCI, Bool.or_eq_true] at h
    rcases h with h | h
    · exact ⟨[], c :: cs, rfl, h⟩
    · obtain ⟨a, b, hab, hm⟩ := ih h
      exact ⟨c :: a, b, by rw [hab]; rfl, hm⟩

/-- `containsCI` is monotone under the infix order. -/
theorem containsCI_mono_within {pat big small : List Char}
    (hinf : small <:+: big) (hc : containsCI pat small = true) :
    containsCI pat big = true := by
  obtain ⟨s, t, hst⟩ := hinf
  obtain ⟨a, b, hab, hm⟩ := containsCI_iff_exists hc
  obtain ⟨r, hr⟩ := Option.isSome_iff_exists.mp hm
  have hm2 : (matchCI pat (b ++ t)).isSome := by
    rw [matchCI_append t hr]; rfl
  have hbig := containsCI_of_suffix_match (s ++ a) (b ++ t) hm2
  rw [← hst, hab]
  simpa [List.append_assoc] using hbig

/-- Keyword-freedom restricts to infixes. -/
theorem kwFree_within {big small : List Char} (h : kwFree big) (hinf : small <:+: big) :
    kwFree small := by
  refine ⟨?_, ?_⟩ <;> rw [Bool.eq_false_iff] <;> intro hc
  · have hb := containsCI_mono_within hinf hc
    rw [h.1] at hb
    cases hb
  · have hb := containsCI_mono_within hinf hc
    rw [h.2] at hb
    cases hb

/-- Keyword-freedom passes to the tail. -/
theorem kwFree_tail {c : Char} {cs : List Char} (h : kwFree (c :: cs)) : kwFree cs := by
  have h1 := h.1
  have h2 := h.2
  simp only [containsCI, Bool.or_eq_false_iff] at h1 h2
  exact ⟨h1.2, h2.2⟩

/-- A successful marker split decomposes its input. -/
theorem splitAtMarkerCI_eq_some {marker : List Char} :
    ∀ {cs pre rest : List Char}, splitAtMarkerCI marker cs = some (pre, rest) →
      ∃ mid, cs = pre ++ mid ++ rest := by
  intro cs
  induction cs with
  | nil =>
    intro pre rest h
    simp only [splitAtMarkerCI] at h
    split at h
    · rename_i r hm
      obtain ⟨p, hp⟩ := matchCI_eq_some hm
      have hr : r = [] := (List.append_eq_nil.mp hp.symm).2
      simp only [Option.some.injEq, Prod.mk.injEq] at h
      obtain ⟨h1, h2⟩ := h
      subst h1
      subst h2
      subst hr
      exact ⟨[], rfl⟩
    · cases h
  | cons c cs' ih =>
    intro pre rest h
    simp only [splitAtMarkerCI] at h
    split at h
    · rename_i r hm
      simp only [Option.some.injEq, Prod.mk.injEq] at h
      obtain ⟨h1, h2⟩ := h
      subst h1
      subst h2
      obtain ⟨p, hp⟩ := matchCI_eq_some hm
      exact ⟨p, by simpa using hp⟩
    · split at h
      · rename_i pr hrec
        simp only [Option.some.injEq, Prod.mk.injEq] at h
        obtain ⟨h1, h2⟩ := h
        subst h1
        subst h2
        obtain ⟨mid, hm2⟩ := ih hrec
        exact ⟨mid, by rw [hm2]; simp⟩
      · cases h


/-- A keyword-free region makes the href pattern fail everywhere. -/
theorem hrefMatchAt_eq_none {cs : List Char} (h : kwFree cs) : hrefMatchAt cs = none := by
  unfold hrefMatchAt
  cases hm : matchCI ("href=".toList ++ ['"']) cs with
  | none => rfl
  | some rest =>
    dsimp only
    cases hs : splitAtMarkerCI ['"'] rest with
    | none => rfl
    | some pr =>
      obtain ⟨region, after⟩ := pr
      dsimp only
      have hinf : region <:+: cs := by
        obtain ⟨p1, h1⟩ := matchCI_eq_some hm
        obtain ⟨mid, h2⟩ := splitAtMarkerCI_eq_some hs
        exact ⟨p1, mid ++ after, by rw [h1, h2]; simp⟩
      have hk := kwFree_within h hinf
      have hko : hrefKeywordOk region = false := by
        unfold hrefKeywordOk
        rw [hk.1, hk.2]
        rfl
      rw [hko]
      rfl

/-- A keyword-free input yields no strategy-1 link match. -/
theorem linkScanF_eq_none : ∀ (fuel : Nat) {cs : List Char}, kwFree cs →
    linkScanF fuel cs = none := by
  intro fuel
  induction fuel with
  | zero => intro cs h; rfl
  | succ f ih =>
    intro cs h
    cases cs with
    | nil => rfl
    | cons c cs' =>
      simp only [linkScanF]
      rw [hrefMatchAt_eq_none h]
      exact ih (kwFree_tail h)

/-- A successful opening-tag step lands on a suffix. -/
theorem tagOpenAt_suffix {tag cs tail : List Char} (h : tagOpenAt tag cs = some tail) :
    ∃ pre, cs = pre ++ tail := by
  unfold tagOpenAt at h
  split at h
  · cases h
  · rename_i rest hm
    split at h
    · rename_i tail' hd
      injection h with h
      subst h
      obtain ⟨p1, h1⟩ := matchCI_eq_some hm
      have hsuf : rest.dropWhile (fun c => decide (c ≠ '>')) <:+ rest :=
        List.dropWhile_suffix _
      rw [hd] at hsuf
      obtain ⟨q, hq⟩ := hsuf
      exact ⟨p1 ++ (q ++ ['>']), by rw [h1, ← hq]; simp⟩
    · cases h

/-- A tag-section match captures an infix and continues on a suffix. -/
theorem tagMatchAt_parts {tag cs cap rest : List Char}
    (h : tagMatchAt tag cs = some (cap, rest)) :
    cap <:+: cs ∧ ∃ pre, cs = pre ++ rest := by
  unfold tagMatchAt at h
  split at h
  · cases h
  · rename_i body hopen
    obtain ⟨p1, h1⟩ := tagOpenAt_suffix hopen
    obtain ⟨mid, h2⟩ := splitAtMarkerCI_eq_some h
    constructor
    · exact ⟨p1, mid ++ rest, by rw [h1, h2]; simp⟩
    · exact ⟨p1 ++ cap ++ mid, by rw [h1, h2]; simp⟩

/-- Every extracted tag section is an infix of the input. -/
theorem tagSectionsF_within {tag : List Char} :
    ∀ (fuel : Nat) (cs cap : List Char), cap ∈ tagSectionsF tag fuel cs → cap <:+: cs := by
  intro fuel
  induction fuel with
  | zero => intro cs cap h; cases h
  | succ f ih =>
    intro cs cap h
    cases cs with
    | nil => cases h
    | cons c cs' =>
      simp only [tagSectionsF] at h
      cases hm : tagMatchAt tag (c :: cs') with
      | some pr =>
        obtain ⟨cap', rest⟩ := pr
        rw [hm] at h
        simp only [List.mem_cons] at h
        obtain ⟨hinfix1, p, hp⟩ := tagMatchAt_parts hm
        rcases h with rfl | h
        · exact hinfix1
        · exact (ih rest cap h).trans (by rw [hp]; exact (List.suffix_append p rest).isInfix)
      | none =>
        rw [hm] at h
        exact List.infix_cons (ih cs' cap h)

/-- A keyword-free input yields no strategy-2 match. -/
theorem altMatchAt_eq_none {cs : List Char} (h : kwFree cs) : altMatchAt cs = none := by
  unfold altMatchAt
  rw [hrefMatchAt_eq_none h]

/-- A keyword-free input yields no strategy-2 matches at all. -/
theorem altScanF_eq_nil : ∀ (fuel : Nat) {cs : List Char}, kwFree cs →
    altScanF fuel cs = [] := by
  intro fuel
  induction fuel with
  | zero => intro cs h; rfl
  | succ f ih =>
    intro cs h
    cases cs with
    | nil => rfl
    | cons c cs' =>
      simp only [altScanF]
      rw [altMatchAt_eq_none h]
      exact ih (kwFree_tail h)

/-- A left-append with a non-empty string is non-empty. -/
theorem append_ne_empty_left {a : String} (u : String) (h : a.length ≠ 0) : a ++ u ≠ "" := by
  intro hc
  have h0 : (a ++ u).length = 0 := by rw [hc]; rfl
  rw [String.length_append] at h0
  omega

/-- The URL fixup never produces the empty string. -/
theorem buildAbsUrl_ne_empty (u : String) : buildAbsUrl u ≠ "" := by
  unfold buildAbsUrl
  split_ifs with h1 h2
  · exact append_ne_empty_left u (by decide)
  · exact append_ne_empty_left u (by decide)
  · intro hc
    subst hc
    exact h2 (by decide)

/-- A strategy-1 candidate's URL passed through the fixup. -/
theorem rowToBid_url {row : List Char} {cb : CommbuysBid} (h : rowToBid row = some cb) :
    ∃ u, cb.url = buildAbsUrl u := by
  simp only [rowToBid] at h
  split at h
  · cases h
  · split at h
    · cases h
    · injection h with h
      subst h
      exact ⟨_, rfl⟩

/-- Every strategy-2 candidate's URL passed through the fixup. -/
theorem altToBids_foldl_url (pairs : List (List Char × List Char)) :
    ∀ (acc : List CommbuysBid), (∀ b ∈ acc, b.url ≠ "") →
      ∀ b ∈ pairs.foldl (fun acc p =>
        let url := buildAbsUrl (String.mk p.1)
        if acc.any (fun b => b.url = url) then acc
        else acc ++ [{ bidNumber := "", title := jsTrim (String.mk p.2), agency := "",
                       dueDate := "", url := url, bidType := "" }]) acc, b.url ≠ "" := by
  induction pairs with
  | nil => intro acc hacc b hb; exact hacc b hb
  | cons p ps ih =>
    intro acc hacc b hb
    simp only [List.foldl_cons] at hb
    refine ih _ (fun b' hb' => ?_) b hb
    split at hb'
    · exact hacc b' hb'
    · rcases List.mem_append.mp hb' with hmem | hmem
      · exact hacc b' hmem
      · simp only [List.mem_singleton] at hmem
        rw [hmem]
        exact buildAbsUrl_ne_empty _

/-- Every parsed candidate has a non-empty URL. -/
theorem parseCommbuys_url_ne {html : String} {cb : CommbuysBid}
    (h : cb ∈ parseCommbuysResults_ html) : cb.url ≠ "" := by
  simp only [parseCommbuysResults_] at h
  split at h
  · unfold altToBids at h
    exact altToBids_foldl_url _ [] (by intro b hb; cases hb) cb h
  · rw [List.mem_filterMap] at h
    obtain ⟨row, -, hrow⟩ := h
    obtain ⟨u, hu⟩ := rowToBid_url hrow
    rw [hu]
    exact buildAbsUrl_ne_empty u

/-! ## Theorem for the parser claim -/

/-- C9: the listing parser is a total function of the raw input — in
this model every input reduces to a value, which is the no-throw
guarantee — and on any input with no bid-detail link keywords
(`bidDetail`/`publicBidOpen` under `/i`, which every link pattern
requires) it returns the empty list; moreover every candidate it ever
returns carries a non-empty absolute URL. -/
theorem parseCommbuys_safe :
    (∀ html : String, kwFree html.toList → parseCommbuysResults_ html = [])
    ∧ (∀ (html : String) (cb : CommbuysBid), cb ∈ parseCommbuysResults_ html → cb.url ≠ "") := by
  constructor
  · intro html h
    simp only [parseCommbuysResults_]
    have hrows : ∀ row ∈ tagSectionsF ("tr".toList) (html.toList.length + 1) html.toList,
        rowToBid row = none := by
      intro row hrow
      unfold rowToBid
      rw [linkScanF_eq_none _ (kwFree_within h (tagSectionsF_within _ _ _ hrow))]
    rw [List.filterMap_eq_nil_iff.mpr hrows, altScanF_eq_nil _ h]
    rfl
  · intro html cb h
    exact parseCommbuys_url_ne h

/-- C9 witness: a concrete malformed non-HTML string parses to the
empty list. -/
theorem parseCommbuys_safe_witness :
    parseCommbuysResults_ malformedHtml = [] :=
  parseCommbuys_safe.1 malformedHtml (by decide)


/-! ## Helper lemmas — discovery poller -/

/-- `getStagingUrls_` distributes over appended rows. -/
theorem getStagingUrls_append (a b : List StagingRow) :
    getStagingUrls_ (a ++ b) = getStagingUrls_ a ++ getStagingUrls_ b := by
  simp [getStagingUrls_, List.filter_append]

/-- `getExistingBidUrls_` over a grown sheet (non-empty original, so
the header row stays the header). -/
theorem getExistingBidUrls_append {a : List (List CellVal)} (b : List (List CellVal))
    (h : a ≠ []) :
    getExistingBidUrls_ (a ++ b) = getExistingBidUrls_ a ++
      (b.map (fun row => jsTrim (cellToString (row.getD 3 .blank)))).filter
        (fun u => u ≠ "") := by
  cases a with
  | nil => exact absurd rfl h
  | cons x a' => simp [getExistingBidUrls_, List.filter_append]

/-- The URL column of an auto-imported row is the candidate's URL. -/
theorem appendToBidsSheet_row_url (freshId : String) (d : CellVal) (cb : CommbuysBid) :
    (appendToBidsSheet_row freshId d cb).getD 3 .blank = .str cb.url := rfl

/-- A candidate already covered by either URL set is skipped. -/
theorem pollCandidate_covered {env : PollEnv} {st : PollSettings}
    {existingUrls : List String} {kw : String} {ls : PollLoopState} {cb : CommbuysBid}
    (h : cb.url ∈ existingUrls ∨ cb.url ∈ ls.stagingUrls) :
    pollCandidate env st existingUrls kw ls cb = ls := by
  unfold pollCandidate
  rw [if_pos h]

/-- One candidate step only appends to the in-memory staging-URL set. -/
theorem pollCandidate_stagingUrls_mono (env : PollEnv) (st : PollSettings)
    (existingUrls : List String) (kw : String) (ls : PollLoopState) (cb : CommbuysBid) :
    ∃ t, (pollCandidate env st existingUrls kw ls cb).stagingUrls = ls.stagingUrls ++ t := by
  unfold pollCandidate
  by_cases h1 : cb.url ∈ existingUrls ∨ cb.url ∈ ls.stagingUrls
  · rw [if_pos h1]
    exact ⟨[], by simp⟩
  · rw [if_neg h1]
    by_cases h2 : st.autoImport = "TRUE"
    · rw [if_pos h2]
      exact ⟨[cb.url], rfl⟩
    · rw [if_neg h2]
      exact ⟨[cb.url], rfl⟩

/-- After its own step, a candidate's URL is covered. -/
theorem pollCandidate_covers_self (env : PollEnv) (st : PollSettings)
    (existingUrls : List String) (kw : String) (ls : PollLoopState) (cb : CommbuysBid) :
    cb.url ∈ existingUrls ∨ cb.url ∈ (pollCandidate env st existingUrls kw ls cb).stagingUrls := by
  unfold pollCandidate
  by_cases h : cb.url ∈ existingUrls ∨ cb.url ∈ ls.stagingUrls
  · rw [if_pos h]
    exact h
  · rw [if_neg h]
    right
    split_ifs <;> simp

/-- One candidate step preserves the poll invariant. -/
theorem pollCandidate_inv {bids0 : List (List CellVal)} (h0 : bids0 ≠ [])
    (env : PollEnv) (st : PollSettings) (existingUrls : List String) (kw : String)
    {ls : PollLoopState} {cb : CommbuysBid}
    (hcb : jsTrim cb.url = cb.url) (hne : cb.url ≠ "")
    (hinv : PollInv bids0 ls) :
    PollInv bids0 (pollCandidate env st existingUrls kw ls cb) := by
  obtain ⟨⟨d, hd⟩, hcov⟩ := hinv
  have hlsne : ls.bidsValues ≠ [] := by
    rw [hd]
    cases bids0 with
    | nil => exact absurd rfl h0
    | cons x a' => simp
  unfold pollCandidate
  split_ifs with h1 h2
  · exact ⟨⟨d, hd⟩, hcov⟩
  · -- auto-import append
    refine ⟨⟨d ++ [appendToBidsSheet_row (env.freshBidId ls.appendIdx)
        (parsedDueCell env.parseDate cb.dueDate) cb], by rw [hd]; simp⟩, ?_⟩
    intro u hu
    rcases List.mem_append.mp hu with hu | hu
    · rcases hcov u hu with hc | hc
      · exact Or.inl hc
      · refine Or.inr ?_
        rw [getExistingBidUrls_append _ hlsne]
        exact List.mem_append.mpr (Or.inl hc)
    · simp only [List.mem_singleton] at hu
      subst hu
      refine Or.inr ?_
      rw [getExistingBidUrls_append _ hlsne]
      refine List.mem_append.mpr (Or.inr ?_)
      simp only [List.map_cons, List.map_nil, appendToBidsSheet_row_url]
      rw [List.mem_filter]
      constructor
      · simp [cellToString, hcb]
      · simpa [cellToString, hcb] using hne
  · -- staging append
    refine ⟨⟨d, hd⟩, ?_⟩
    intro u hu
    rcases List.mem_append.mp hu with hu | hu
    · rcases hcov u hu with hc | hc
      · refine Or.inl ?_
        rw [getStagingUrls_append]
        exact List.mem_append.mpr (Or.inl hc)
      · exact Or.inr hc
    · simp only [List.mem_singleton] at hu
      subst hu
      refine Or.inl ?_
      rw [getStagingUrls_append]
      refine List.mem_append.mpr (Or.inr ?_)
      simp [getStagingUrls_, appendToStaging_row, hcb, hne]


/-- A successfully fetched candidate has a non-empty URL. -/
theorem searchCommbuys_url_ne {env : PollEnv} {kw : String} {cbs : List CommbuysBid}
    {cb : CommbuysBid} (hs : searchCommbuys_ env kw = .ok cbs) (hcb : cb ∈ cbs) :
    cb.url ≠ "" := by
  unfold searchCommbuys_ at hs
  split at hs
  · cases hs
  · split at hs
    · injection hs with hs
      subst hs
      exact parseCommbuys_url_ne hcb
    · injection hs with hs
      subst hs
      cases hcb

/-- Folding the candidate loop preserves the invariant, only grows the
URL set, and covers every processed candidate. -/
theorem pollCandidates_foldl_spec {bids0 : List (List CellVal)} (h0 : bids0 ≠ [])
    (env : PollEnv) (st : PollSettings) (existingUrls : List String) (kw : String) :
    ∀ (cbs : List CommbuysBid) (ls : PollLoopState),
      (∀ cb ∈ cbs, jsTrim cb.url = cb.url ∧ cb.url ≠ "") →
      PollInv bids0 ls →
      PollInv bids0 (cbs.foldl (pollCandidate env st existingUrls kw) ls)
      ∧ (∃ t, (cbs.foldl (pollCandidate env st existingUrls kw) ls).stagingUrls
            = ls.stagingUrls ++ t)
      ∧ (∀ cb ∈ cbs, cb.url ∈ existingUrls ∨
          cb.url ∈ (cbs.foldl (pollCandidate env st existingUrls kw) ls).stagingUrls) := by
  intro cbs
  induction cbs with
  | nil =>
    intro ls h hinv
    exact ⟨hinv, ⟨[], by simp⟩, by simp⟩
  | cons cb cbs ih =>
    intro ls h hinv
    simp only [List.foldl_cons]
    have hcb := h cb (by simp)
    have hinv1 := pollCandidate_inv h0 env st existingUrls kw hcb.1 hcb.2 hinv
    obtain ⟨hinvF, ⟨t2, ht2⟩, hcovF⟩ := ih (pollCandidate env st existingUrls kw ls cb)
      (fun c hc => h c (by simp [hc])) hinv1
    obtain ⟨t1, ht1⟩ := pollCandidate_stagingUrls_mono env st existingUrls kw ls cb
    refine ⟨hinvF, ⟨t1 ++ t2, by rw [ht2, ht1, List.append_assoc]⟩, ?_⟩
    intro c hc
    rcases List.mem_cons.mp hc with rfl | hc2
    · rcases pollCandidate_covers_self env st existingUrls kw ls c with hx | hx
      · exact Or.inl hx
      · refine Or.inr ?_
        rw [ht2]
        exact List.mem_append.mpr (Or.inl hx)
    · exact hcovF c hc2

/-- One keyword of the poll: the same three facts, with the fetch
either failing (caught) or yielding candidates. -/
theorem pollKeyword_spec {bids0 : List (List CellVal)} (h0 : bids0 ≠ [])
    (env : PollEnv) (st : PollSettings) (existingUrls : List String) (kw : String)
    (hkw : ∀ cbs, searchCommbuys_ env kw = .ok cbs →
      ∀ cb ∈ cbs, jsTrim cb.url = cb.url ∧ cb.url ≠ "")
    (ls : PollLoopState) (hinv : PollInv bids0 ls) :
    PollInv bids0 (pollKeyword env st existingUrls ls kw)
    ∧ (∃ t, (pollKeyword env st existingUrls ls kw).stagingUrls = ls.stagingUrls ++ t)
    ∧ (∀ cbs, searchCommbuys_ env kw = .ok cbs → ∀ cb ∈ cbs,
        cb.url ∈ existingUrls ∨ cb.url ∈ (pollKeyword env st existingUrls ls kw).stagingUrls) := by
  unfold pollKeyword
  cases hs : searchCommbuys_ env kw with
  | error e =>
    refine ⟨hinv, ⟨[], by simp⟩, ?_⟩
    intro cbs hcb
    cases hcb
  | ok cbs =>
    obtain ⟨h1, h2, h3⟩ := pollCandidates_foldl_spec h0 env st existingUrls kw cbs ls
      (hkw cbs hs) hinv
    refine ⟨h1, h2, ?_⟩
    intro cbs2 hcb
    injection hcb with hcb
    subst hcb
    exact h3

/-- Folding all keywords: invariant, growth, full coverage. -/
theorem pollKeywords_foldl_spec {bids0 : List (List CellVal)} (h0 : bids0 ≠ [])
    (env : PollEnv) (st : PollSettings) (existingUrls : List String) :
    ∀ (kws : List String) (ls : PollLoopState),
      (∀ kw ∈ kws, ∀ cbs, searchCommbuys_ env kw = .ok cbs →
        ∀ cb ∈ cbs, jsTrim cb.url = cb.url ∧ cb.url ≠ "") →
      PollInv bids0 ls →
      PollInv bids0 (kws.foldl (pollKeyword env st existingUrls) ls)
      ∧ (∃ t, (kws.foldl (pollKeyword env st existingUrls) ls).stagingUrls
            = ls.stagingUrls ++ t)
      ∧ (∀ kw ∈ kws, ∀ cbs, searchCommbuys_ env kw = .ok cbs → ∀ cb ∈ cbs,
          cb.url ∈ existingUrls ∨
            cb.url ∈ (kws.foldl (pollKeyword env st existingUrls) ls).stagingUrls) := by
  intro kws
  induction kws with
  | nil =>
    intro ls h hinv
    exact ⟨hinv, ⟨[], by simp⟩, by simp⟩
  | cons kw kws ih =>
    intro ls h hinv
    simp only [List.foldl_cons]
    obtain ⟨hinv1, ⟨t1, ht1⟩, hcov1⟩ := pollKeyword_spec h0 env st existingUrls kw
      (fun cbs hs => h kw (by simp) cbs hs) ls hinv
    obtain ⟨hinvF, ⟨t2, ht2⟩, hcovF⟩ := ih (pollKeyword env st existingUrls ls kw)
      (fun k hk => h k (by simp [hk])) hinv1
    refine ⟨hinvF, ⟨t1 ++ t2, by rw [ht2, ht1, List.append_assoc]⟩, ?_⟩
    intro k hk cbs hs cb hcb
    rcases List.mem_cons.mp hk with rfl | hk2
    · rcases hcov1 cbs hs cb hcb with hx | hx
      · exact Or.inl hx
      · refine Or.inr ?_
        rw [ht2]
        exact List.mem_append.mpr (Or.inl hx)
    · exact hcovF k hk2 cbs hs cb hcb

/-- A candidate fold over fully covered candidates is a no-op. -/
theorem pollCandidates_foldl_id (env : PollEnv) (st : PollSettings)
    (existingUrls : List String) (kw : String) :
    ∀ (cbs : List CommbuysBid) (ls : PollLoopState),
      (∀ cb ∈ cbs, cb.url ∈ existingUrls ∨ cb.url ∈ ls.stagingUrls) →
      cbs.foldl (pollCandidate env st existingUrls kw) ls = ls := by
  intro cbs
  induction cbs with
  | nil => intro ls h; rfl
  | cons cb cbs ih =>
    intro ls h
    simp only [List.foldl_cons]
    rw [pollCandidate_covered (h cb (by simp))]
    exact ih ls (fun c hc => h c (by simp [hc]))

/-- A keyword fold over fully covered candidates is a no-op. -/
theorem pollKeywords_foldl_id (env : PollEnv) (st : PollSettings)
    (existingUrls : List String) :
    ∀ (kws : List String) (ls : PollLoopState),
      (∀ kw ∈ kws, ∀ cbs, searchCommbuys_ env kw = .ok cbs →
        ∀ cb ∈ cbs, cb.url ∈ existingUrls ∨ cb.url ∈ ls.stagingUrls) →
      kws.foldl (pollKeyword env st existingUrls) ls = ls := by
  intro kws
  induction kws with
  | nil => intro ls h; rfl
  | cons kw kws ih =>
    intro ls h
    simp only [List.foldl_cons]
    have h1 : pollKeyword env st existingUrls ls kw = ls := by
      unfold pollKeyword
      cases hs : searchCommbuys_ env kw with
      | error e => rfl
      | ok cbs => exact pollCandidates_foldl_id env st existingUrls kw cbs ls (h kw (by simp) cbs hs)
    rw [h1]
    exact ih ls (fun k hk => h k (by simp [hk]))


/-! ## Theorems for the discovery-poll claim -/

/-- C7 counterexample: with an external listing whose bid-detail href
carries a trailing space, the first poll stages the candidate but the
second poll stages it again (`totalNew = 1`, not `0`), because the
stored URL is read back trimmed while the freshly parsed URL is not. -/
theorem pollCommbuys_rerun_counterexample :
    (pollCommbuys spacePollEnv stagingPollSettings headerOnlyBids []).totalNew = 1
    ∧ (pollCommbuys spacePollEnv stagingPollSettings
        (pollCommbuys spacePollEnv stagingPollSettings headerOnlyBids []).bidsValues
        (pollCommbuys spacePollEnv stagingPollSettings headerOnlyBids []).staging).totalNew = 1 := by
  decide

/-- C7 (amended): under an unchanged external listing and no
interleaving edits, a second `pollCommbuys` run stages zero new
candidates and imports zero new bids — the state is exactly the first
run's state with `totalNew = 0` — provided the Bids sheet has its
header row and every parsed candidate URL carries no leading/trailing
whitespace (the trimmed read-back otherwise defeats the dedup, as the
counterexample shows). -/
theorem pollCommbuys_second_run_noop :
    ∀ (env : PollEnv) (st : PollSettings) (bids0 : List (List CellVal))
      (staging0 : List StagingRow),
      bids0 ≠ [] →
      (∀ kw ∈ pollKeywords st.keywordsRaw, ∀ cbs, searchCommbuys_ env kw = .ok cbs →
        ∀ cb ∈ cbs, jsTrim cb.url = cb.url) →
      pollCommbuys env st (pollCommbuys env st bids0 staging0).bidsValues
          (pollCommbuys env st bids0 staging0).staging
        = ⟨(pollCommbuys env st bids0 staging0).bidsValues,
           (pollCommbuys env st bids0 staging0).staging, 0⟩ := by
  intro env st bids0 staging0 h0 hurl
  by_cases hE : jsUpper st.enabled ≠ "TRUE"
  · simp only [pollCommbuys, if_pos hE]
  · by_cases hK : (pollKeywords st.keywordsRaw).length = 0
    · simp only [pollCommbuys, if_neg hE, if_pos hK]
    · have hrun : ∀ (b : List (List CellVal)) (s : List StagingRow),
          pollCommbuys env st b s =
            PollResult.mk
              ((pollKeywords st.keywordsRaw).foldl (pollKeyword env st (getExistingBidUrls_ b))
                ⟨b, s, getStagingUrls_ s, 0, 0⟩).bidsValues
              ((pollKeywords st.keywordsRaw).foldl (pollKeyword env st (getExistingBidUrls_ b))
                ⟨b, s, getStagingUrls_ s, 0, 0⟩).staging
              ((pollKeywords st.keywordsRaw).foldl (pollKeyword env st (getExistingBidUrls_ b))
                ⟨b, s, getStagingUrls_ s, 0, 0⟩).totalNew := by
        intro b s
        simp only [pollCommbuys, if_neg hE, if_neg hK]
      have hurl2 : ∀ kw ∈ pollKeywords st.keywordsRaw, ∀ cbs,
          searchCommbuys_ env kw = .ok cbs →
          ∀ cb ∈ cbs, jsTrim cb.url = cb.url ∧ cb.url ≠ "" :=
        fun kw hkw cbs hs cb hcb => ⟨hurl kw hkw cbs hs cb hcb, searchCommbuys_url_ne hs hcb⟩
      obtain ⟨⟨⟨d, hd⟩, hcovinv⟩, -, hcovF⟩ :=
        pollKeywords_foldl_spec h0 env st (getExistingBidUrls_ bids0)
          (pollKeywords st.keywordsRaw) ⟨bids0, staging0, getStagingUrls_ staging0, 0, 0⟩
          hurl2 ⟨⟨[], by simp⟩, fun u hu => Or.inl hu⟩
      set lsF := (pollKeywords st.keywordsRaw).foldl
        (pollKeyword env st (getExistingBidUrls_ bids0))
        ⟨bids0, staging0, getStagingUrls_ staging0, 0, 0⟩ with hlsF
      have hcov2 : ∀ kw ∈ pollKeywords st.keywordsRaw, ∀ cbs,
          searchCommbuys_ env kw = .ok cbs → ∀ cb ∈ cbs,
          cb.url ∈ getExistingBidUrls_ lsF.bidsValues ∨
            cb.url ∈ getStagingUrls_ lsF.staging := by
        intro kw hkw cbs hs cb hcb
        rcases hcovF kw hkw cbs hs cb hcb with hx | hx
        · left
          rw [hd, getExistingBidUrls_append _ h0]
          exact List.mem_append.mpr (Or.inl hx)
        · rcases hcovinv cb.url hx with hy | hy
          · exact Or.inr hy
          · exact Or.inl hy
      have hid := pollKeywords_foldl_id env st (getExistingBidUrls_ lsF.bidsValues)
        (pollKeywords st.keywordsRaw)
        ⟨lsF.bidsValues, lsF.staging, getStagingUrls_ lsF.staging, 0, 0⟩
        (by
          intro kw hkw cbs hs cb hcb
          rcases hcov2 kw hkw cbs hs cb hcb with hx | hx
          · exact Or.inl hx
          · exact Or.inr hx)
      rw [hrun bids0 staging0]
      dsimp only
      rw [hrun lsF.bidsValues lsF.staging, hid]

/-- C7 witness: with a well-formed listing, two consecutive polls leave
the second run with zero new candidates and unchanged sheets. -/
theorem pollCommbuys_second_run_noop_witness :
    pollCommbuys cleanPollEnv stagingPollSettings
        (pollCommbuys cleanPollEnv stagingPollSettings headerOnlyBids []).bidsValues
        (pollCommbuys cleanPollEnv stagingPollSettings headerOnlyBids []).staging
      = ⟨(pollCommbuys cleanPollEnv stagingPollSettings headerOnlyBids []).bidsValues,
         (pollCommbuys cleanPollEnv stagingPollSettings headerOnlyBids []).staging, 0⟩ :=
  pollCommbuys_second_run_noop cleanPollEnv stagingPollSettings headerOnlyBids []
    (by decide)
    (by
      intro kw hkw cbs hs cb hcb
      have hseq : searchCommbuys_ cleanPollEnv kw = .ok (parseCommbuysResults_ cleanHtml) := rfl
      rw [hseq] at hs
      injection hs with hs
      subst hs
      have hp : parseCommbuysResults_ cleanHtml = [cbClean] := by decide
      rw [hp] at hcb
      simp only [List.mem_singleton] at hcb
      subst hcb
      decide)

end BidCenter
